import Mathlib

/-!
# Verification of the LIFX MCP Server Backend orchestration layer

A shallow embedding, in Lean 4, of the per-request MCP process
orchestration code of the `LifxMCPServerBackend` repository:

* `src/services/mcpManager.js` — process supervisor (`spawnMcpServer`,
  `cleanupMcpProcess`) and JSON-RPC call correlator (`callMcpMethod`,
  `initializeMcpServer`);
* `src/middleware/rateLimit.js` — session tracking and the global
  concurrent-process limiter (`mcpLimiter`, `getSessionInfo`);
* the session-isolated log sink embedded in the server file
  (`isSystemLog`, `addLogToStorage`, `getLogsForSession`).

JavaScript strings are modelled as Lean `String` (or `List Char` where
the byte-stream structure matters), JS objects as Lean structures,
JS `Map`s as insertion-ordered association lists, and the Node.js
event-loop callbacks as explicit event traces folded over step
functions.  Numbers that stay small non-negative integers in the code
are `Nat`; the one counter that can go below zero (`activeMcpCount`)
is `Int`.
-/

/-! ## Process teardown (`cleanupMcpProcess`, src/services/mcpManager.js 304-325)

Node.js `ChildProcess` semantics needed here: `subprocess.kill(sig)`
sends `sig` and sets the `killed` property to `true` as soon as a
signal has been successfully *sent*; `killed` does **not** indicate
that the process has exited, and nothing ever resets it to `false`.
Whether the OS process is still running is tracked separately in
`alive`, which only the process itself (by exiting) changes. -/

inductive Sig where
  | sigterm
  | sigkill
deriving DecidableEq, Repr

structure ChildProc where
  /-- Node's `subprocess.killed` flag: a signal has been sent via `kill()`. -/
  killed : Bool
  /-- OS-level liveness: the process has not exited yet. -/
  alive : Bool
  /-- All signals sent to the process so far, in order. -/
  signalsSent : List Sig
deriving DecidableEq, Repr

/-- `subprocess.kill(sig)`: records the signal and sets `killed`. -/
def ChildProc.kill (p : ChildProc) (s : Sig) : ChildProc :=
  { p with killed := true, signalsSent := p.signalsSent ++ [s] }

/-- A child process as `spawnMcpServer` hands it to the caller:
no signal sent yet. -/
def freshChildProc : ChildProc :=
  { killed := false, alive := true, signalsSent := [] }

/-- `cleanupMcpProcess`, immediate part (mcpManager.js 305-307): if the
handle exists and `killed` is not yet set, send SIGTERM.  The returned
Bool records whether the 5-second force-kill timer was scheduled
(the `setTimeout` at line 310 runs only inside this branch). -/
def cleanupImmediate (p : ChildProc) : ChildProc × Bool :=
  if !p.killed then (p.kill .sigterm, true) else (p, false)

/-- Body of the 5-second timer (mcpManager.js 310-315): force-kill with
SIGKILL only when `killed` is still false at the 5-second mark. -/
def cleanupTimerBody (p : ChildProc) : ChildProc :=
  if !p.killed then p.kill .sigkill else p

/-- The child exiting (or not) during the 5-second grace window: only
OS liveness changes; Node never resets `killed`. -/
def elapseGrace (p : ChildProc) (stillAlive : Bool) : ChildProc :=
  { p with alive := stillAlive }

/-- Full teardown run of `cleanupMcpProcess` on a handle: immediate
part, then the grace window, then the scheduled timer (if any). -/
def cleanupRun (p : ChildProc) (stillAliveAt5s : Bool) : ChildProc :=
  let (p1, scheduled) := cleanupImmediate p
  let p2 := elapseGrace p1 stillAliveAt5s
  if scheduled then cleanupTimerBody p2 else p2

/-! ## Concurrency limiter (`mcpLimiter`, src/middleware/rateLimit.js 113-143)

`mcpLimiter` admits a request when `activeMcpCount < MAX_CONCURRENT_MCP`,
increments the counter, and registers **two** decrement listeners on the
response: one for the `'finish'` event and one for the `'close'` event
(rateLimit.js 134-140).  On Node.js ≥ 10 (the package requires
`node >= 18`) an `http.ServerResponse` emits `'finish'` when the
response has been written out and *additionally* emits `'close'` once
the response/stream is done, so a normally completed request fires both
events; a client disconnect fires only `'close'`. -/

inductive ResEvent where
  | finish
  | close
deriving DecidableEq, Repr

def MAX_CONCURRENT_MCP : Int := 5

/-- Admission check of `mcpLimiter` (rateLimit.js 118-131): returns
whether the request was admitted (`next()` called) and the new counter. -/
def mcpLimiterAdmit (activeMcpCount : Int) : Bool × Int :=
  if activeMcpCount ≥ MAX_CONCURRENT_MCP then (false, activeMcpCount)
  else (true, activeMcpCount + 1)

/-- The response-event listeners registered by `mcpLimiter` for one
admitted request (rateLimit.js 134-140): `'finish'` decrements and
`'close'` decrements. -/
def mcpLimiterOnEvent (activeMcpCount : Int) (e : ResEvent) : Int :=
  match e with
  | .finish => activeMcpCount - 1
  | .close => activeMcpCount - 1

/-- One admitted request's whole lifecycle effect on the counter:
admission, then the response events that fire for this request. -/
def mcpRequestLifecycle (activeMcpCount : Int) (events : List ResEvent) : Int :=
  let (admitted, c) := mcpLimiterAdmit activeMcpCount
  if admitted then events.foldl mcpLimiterOnEvent c else c

/-! ## JS helpers: Map-as-association-list and string truthiness -/

/-- Lookup in a JS `Map` modelled as an insertion-ordered association
list (`Map.get`). -/
def alistGet {α : Type} (m : List (String × α)) (k : String) : Option α :=
  (m.find? (fun kv => kv.1 == k)).map (·.2)

/-- `Map.set`: update in place when the key exists (keeping its
insertion position), append otherwise. -/
def alistSet {α : Type} : List (String × α) → String → α → List (String × α)
  | [], k, v => [(k, v)]
  | (k', v') :: rest, k, v =>
    if k' == k then (k, v) :: rest else (k', v') :: alistSet rest k v

/-- JS truthiness of an optional string value: `undefined` and the
empty string are falsy. -/
def jsTruthy : Option String → Bool
  | none => false
  | some s => !s.isEmpty

/-! ## Session tracking and session info
(src/middleware/rateLimit.js 26-57 and 248-283, endpoint
src/mcp-server-manager.js 457-494) -/

def SESSION_REQUEST_LIMIT : Nat := 100

/-- The three module-level session maps of rateLimit.js (lines 5-7). -/
structure RateLimitState where
  ipSessionMap : List (String × List String)
  sessionRequestCount : List (String × Nat)
  sessionTimestamps : List (String × Nat)
deriving DecidableEq, Repr

def emptyRateLimitState : RateLimitState := ⟨[], [], []⟩

structure TrackerResult where
  state : RateLimitState
  sessionId : String
deriving DecidableEq, Repr

/-- `sessionTracker` middleware (rateLimit.js 26-57): rejects with 400
when the `x-session-id` header is missing (`none` here), otherwise
registers the IP and — when the id is new — its creation timestamp,
adds the id to the IP's session set, and calls `next()` with
`req.sessionId` set. -/
def sessionTracker (st : RateLimitState) (clientIP : String)
    (sessionIdHeader : Option String) (now : Nat) : Option TrackerResult :=
  if !(jsTruthy sessionIdHeader) then none
  else
    let sessionId := sessionIdHeader.getD ""
    let st1 :=
      if (alistGet st.ipSessionMap clientIP).isNone then
        { st with ipSessionMap := alistSet st.ipSessionMap clientIP [] }
      else st
    let st2 :=
      if (alistGet st1.sessionTimestamps sessionId).isNone then
        { st1 with sessionTimestamps := alistSet st1.sessionTimestamps sessionId now }
      else st1
    let sessions := (alistGet st2.ipSessionMap clientIP).getD []
    let sessions' := if sessions.contains sessionId then sessions else sessions ++ [sessionId]
    some { state := { st2 with ipSessionMap := alistSet st2.ipSessionMap clientIP sessions' },
           sessionId := sessionId }

/-- The record built by `getSessionInfo` (rateLimit.js 265-274). -/
structure SessionInfo where
  sessionId : String
  clientIP : Option String
  requestsUsed : Nat
  requestsRemaining : Int
  requestLimit : Nat
  createdAt : Option Nat
  sessionAge : Option Nat
  isActive : Bool
deriving DecidableEq, Repr

/-- `getSessionInfo(sessionId, clientIP)` (rateLimit.js 248-283).  The
function body consists only of total operations (map lookups,
arithmetic, date formatting), so the `catch` branch returning `null`
can never execute; the translation therefore always produces `some`. -/
def getSessionInfo (st : RateLimitState) (sessionId : String)
    (clientIP : Option String) (now : Nat) : Option SessionInfo :=
  let requestCount := (alistGet st.sessionRequestCount sessionId).getD 0
  let createdAt := alistGet st.sessionTimestamps sessionId
  let associatedIP :=
    if jsTruthy clientIP then clientIP
    else (st.ipSessionMap.find? (fun kv => kv.2.contains sessionId)).map (·.1)
  some { sessionId := sessionId
         clientIP := associatedIP
         requestsUsed := requestCount
         requestsRemaining := (SESSION_REQUEST_LIMIT : Int) - requestCount
         requestLimit := SESSION_REQUEST_LIMIT
         createdAt := createdAt
         sessionAge := createdAt.map (fun t => now - t)
         isActive := (alistGet st.sessionTimestamps sessionId).isSome }

/-- Outcome of `GET /api/session-info` (mcp-server-manager.js 457-494),
after the `accessControl` check has passed. -/
inductive SessionInfoResponse where
  /-- 400 `MISSING_SESSION_ID` from `sessionTracker`. -/
  | missingSessionId
  /-- 404 `SESSION_NOT_FOUND` from the `!sessionInfo` branch. -/
  | notFound
  /-- 200 with the session record. -/
  | ok (info : SessionInfo)
deriving DecidableEq, Repr

/-- The endpoint: `sessionTracker` middleware runs first, then the
handler calls `getSessionInfo(req.sessionId, req.ip)`. -/
def sessionInfoEndpoint (st : RateLimitState) (clientIP : String)
    (sessionIdHeader : Option String) (now : Nat) :
    SessionInfoResponse × RateLimitState :=
  match sessionTracker st clientIP sessionIdHeader now with
  | none => (.missingSessionId, st)
  | some tr =>
    match getSessionInfo tr.state tr.sessionId (some clientIP) now with
    | none => (.notFound, tr.state)
    | some info => (.ok info, tr.state)

/-! ## Theorems for claims C1 and C3 -/

/-- **C3** (code_bug evidence).  The claim states that a process still
alive 5 seconds after `cleanupMcpProcess`'s SIGTERM is sent a SIGKILL.
In the code the force-kill branch tests `!mcpProcess.killed`, but
`killed` was already set to `true` by the SIGTERM `kill()` call, so the
SIGKILL is never issued: tearing down a fresh handle whose process
ignores SIGTERM and is still alive at the 5-second mark sends exactly
`[SIGTERM]` and no SIGKILL, leaving the process alive. -/
theorem cleanupMcpProcess_never_sends_sigkill :
    (cleanupRun freshChildProc true).signalsSent = [Sig.sigterm] ∧
      Sig.sigkill ∉ (cleanupRun freshChildProc true).signalsSent ∧
      (cleanupRun freshChildProc true).alive = true := by
  decide

/-- **C1** (code_bug evidence).  The claim states the active-process
counter is decremented exactly once per admitted request, balancing to
zero and never going negative.  `mcpLimiter` registers a decrement on
both the `'finish'` and the `'close'` response events; a single
admitted request that completes normally (Node emits `'finish'` then
`'close'`) therefore decrements twice, driving the counter from 0 to
-1, and N such requests drive it to -N. -/
theorem mcpLimiter_double_decrement :
    mcpRequestLifecycle 0 [ResEvent.finish, ResEvent.close] = -1 ∧
      mcpRequestLifecycle (mcpRequestLifecycle 0 [ResEvent.finish, ResEvent.close])
        [ResEvent.finish, ResEvent.close] = -2 := by
  decide

/-! ## Theorems for claim C10 -/

theorem alistGet_alistSet_self {α : Type} (m : List (String × α)) (k : String) (v : α) :
    alistGet (alistSet m k v) k = some v := by
  induction m with
  | nil => simp [alistSet, alistGet]
  | cons kv rest ih =>
    obtain ⟨k', v'⟩ := kv
    by_cases h : k' == k
    · simp [alistSet, alistGet, h]
    · simp only [alistSet, h, if_false, Bool.false_eq_true]
      simpa [alistGet, List.find?, h] using ih

/-- **C10** (counterexample).  The claim says a request bearing an
unknown session id receives HTTP 200 with `isActive` false.  On a
fresh server, querying `/api/session-info` with a never-seen session
id indeed returns 200, but with `isActive = true` and `createdAt` set:
the `sessionTracker` middleware registers the unknown id before
`getSessionInfo` runs. -/
theorem sessionInfo_unknown_session_reports_active :
    (sessionInfoEndpoint emptyRateLimitState "203.0.113.7" (some "fresh-session") 42).1 =
      SessionInfoResponse.ok
        { sessionId := "fresh-session"
          clientIP := some "203.0.113.7"
          requestsUsed := 0
          requestsRemaining := 100
          requestLimit := 100
          createdAt := some 42
          sessionAge := some 0
          isActive := true } := by
  decide

theorem sessionTracker_some (st : RateLimitState) (ip : String) (hdr : Option String)
    (now : Nat) (h : jsTruthy hdr = true) :
    ∃ tr, sessionTracker st ip hdr now = some tr ∧ tr.sessionId = hdr.getD "" ∧
      tr.state.sessionRequestCount = st.sessionRequestCount ∧
      (alistGet tr.state.sessionTimestamps (hdr.getD "")).isSome = true := by
  unfold sessionTracker
  simp only [h, Bool.not_true, Bool.false_eq_true, if_false]
  refine ⟨_, rfl, rfl, ?_, ?_⟩
  · dsimp only
    split_ifs <;> rfl
  · dsimp only
    split_ifs with h1 h2 h2 <;>
      simp_all [alistGet_alistSet_self, Option.isNone_iff_eq_none, Option.isSome_iff_ne_none]

/-- **C10** (amended).  `getSessionInfo` is total: it returns a record
(never `null`) for every input, and for a session id absent from every
tracking map the record has `requestsUsed = 0`, the full limit
remaining, `createdAt = null` and `isActive = false`, so the
`SESSION_NOT_FOUND` 404 branch of `GET /api/session-info` is
unreachable.  However a request bearing an unknown session id receives
HTTP 200 with `isActive = true` (not false): `sessionTracker` registers
the id in `sessionTimestamps` before the handler queries it. -/
theorem getSessionInfo_total_and_endpoint_ok :
    (∀ (st : RateLimitState) (sid : String) (ip : Option String) (now : Nat),
        (getSessionInfo st sid ip now).isSome) ∧
    (∀ (st : RateLimitState) (sid : String) (ip : Option String) (now : Nat),
        alistGet st.sessionTimestamps sid = none →
        alistGet st.sessionRequestCount sid = none →
        ∃ info, getSessionInfo st sid ip now = some info ∧
          info.requestsUsed = 0 ∧
          info.requestsRemaining = (SESSION_REQUEST_LIMIT : Int) ∧
          info.createdAt = none ∧ info.isActive = false) ∧
    (∀ (st : RateLimitState) (ip : String) (hdr : Option String) (now : Nat),
        jsTruthy hdr = true →
        ∃ info, (sessionInfoEndpoint st ip hdr now).1 = SessionInfoResponse.ok info ∧
          info.isActive = true ∧
          info.requestsUsed = (alistGet st.sessionRequestCount (hdr.getD "")).getD 0) := by
  refine ⟨fun st sid ip now => rfl, ?_, ?_⟩
  · intro st sid ip now hts hcnt
    exact ⟨_, rfl, by simp [getSessionInfo, hcnt], by simp [getSessionInfo, hcnt],
      by simp [getSessionInfo, hts], by simp [getSessionInfo, hts]⟩
  · intro st ip hdr now htr
    obtain ⟨tr, htrEq, hsid, hcount, hts⟩ := sessionTracker_some st ip hdr now htr
    refine ⟨{ sessionId := tr.sessionId
              clientIP := if jsTruthy (some ip) = true then some ip
                else (tr.state.ipSessionMap.find?
                  (fun kv => kv.2.contains tr.sessionId)).map (·.1)
              requestsUsed := (alistGet tr.state.sessionRequestCount tr.sessionId).getD 0
              requestsRemaining := (SESSION_REQUEST_LIMIT : Int) -
                (alistGet tr.state.sessionRequestCount tr.sessionId).getD 0
              requestLimit := SESSION_REQUEST_LIMIT
              createdAt := alistGet tr.state.sessionTimestamps tr.sessionId
              sessionAge := (alistGet tr.state.sessionTimestamps tr.sessionId).map
                (fun t => now - t)
              isActive := (alistGet tr.state.sessionTimestamps tr.sessionId).isSome },
      ?_, ?_, ?_⟩
    · rw [sessionInfoEndpoint, htrEq]
      rfl
    · dsimp only
      rw [hsid]
      exact hts
    · dsimp only
      rw [hsid, hcount]

/-- Witness for the amended C10 theorem at a concrete fresh server and
a concrete unknown session id. -/
theorem getSessionInfo_total_and_endpoint_ok_witness :
    (alistGet emptyRateLimitState.sessionTimestamps "ghost" = none ∧
      alistGet emptyRateLimitState.sessionRequestCount "ghost" = none ∧
      ∃ info, getSessionInfo emptyRateLimitState "ghost" (some "10.0.0.1") 5 = some info ∧
        info.requestsUsed = 0 ∧ info.requestsRemaining = (SESSION_REQUEST_LIMIT : Int) ∧
        info.createdAt = none ∧ info.isActive = false) ∧
    (jsTruthy (some "ghost") = true ∧
      ∃ info, (sessionInfoEndpoint emptyRateLimitState "10.0.0.1" (some "ghost") 5).1 =
          SessionInfoResponse.ok info ∧ info.isActive = true ∧
          info.requestsUsed =
            (alistGet emptyRateLimitState.sessionRequestCount ((some "ghost").getD "")).getD 0) :=
  ⟨⟨by decide, by decide,
    getSessionInfo_total_and_endpoint_ok.2.1 emptyRateLimitState "ghost" (some "10.0.0.1") 5
      (by decide) (by decide)⟩,
   ⟨by decide,
    getSessionInfo_total_and_endpoint_ok.2.2 emptyRateLimitState "10.0.0.1" (some "ghost") 5
      (by decide)⟩⟩

/-! ## Credential channel: `spawnMcpServer` and `POST /api/lifx/:action`
(src/services/mcpManager.js 25-137, 140-239; endpoint in the server
file).  The LIFX API key enters `spawn` only through the `env` object
(`LIFX_TOKEN`); the argv is the constant `['node', serverPath]`; the
JSON-RPC body sent by `callMcpMethod` is built from the tool name and
the request body with the `lifxApiKey` field destructured away; and no
log call site in these functions mentions the key. -/

def serverPath : String := "lifx-api-mcp-server.js"

/-- The `spawn('node', [serverPath], { env: {...} })` call
(mcpManager.js 29-37), keeping the fields the spawn sets explicitly. -/
structure SpawnConfig where
  cmd : String
  args : List String
  envLifxToken : String
  envLogLevel : String
  envSessionId : String
deriving DecidableEq, Repr

def spawnMcpServerConfig (lifxApiKey : String) (sessionId : Option String)
    (parentLogLevel : Option String) : SpawnConfig :=
  { cmd := "node"
    args := [serverPath]
    envLifxToken := lifxApiKey
    envLogLevel := if jsTruthy parentLogLevel then parentLogLevel.getD "" else "info"
    envSessionId := if jsTruthy sessionId then sessionId.getD "" else "system" }

/-- One structured log record as emitted through `logger` /
`captureMcpLog` (string-valued metadata fields). -/
structure LogRecord where
  level : String
  message : String
  meta : List (String × String)
deriving DecidableEq, Repr

/-- Lifecycle events of the spawned child that trigger log emission in
`spawnMcpServer`'s handlers (mcpManager.js 52-135). -/
inductive ProcEvent where
  | spawned
  | spawnError (msg : String)
  | exited (code : Int) (signal : String)
  | stdoutData (chunk : String)
  | stderrData (chunk : String)
deriving DecidableEq, Repr

/-- The log records emitted by `spawnMcpServer`'s event handlers for
one child event.  None of the handlers reference the API key. -/
def spawnEventLogs (sessionId : String) (pid : Nat) : ProcEvent → List LogRecord
  | .spawned =>
    [⟨"debug", "MCP server spawned successfully", [("sessionId", sessionId), ("pid", toString pid)]⟩]
  | .spawnError msg =>
    [⟨"error", "MCP server spawn error", [("error", msg), ("sessionId", sessionId)]⟩]
  | .exited code signal =>
    let msg := "MCP server exited with code " ++ toString code ++ ", signal " ++ signal
    let meta := [("code", toString code), ("signal", signal),
                 ("pid", toString pid), ("sessionId", sessionId)]
    if code ≠ 0 then [⟨"warn", msg, meta⟩, ⟨"warn", msg, meta⟩]
    else [⟨"debug", msg, meta⟩, ⟨"debug", msg, meta⟩]
  | .stdoutData chunk =>
    let output := chunk.trim
    if output ≠ "" then
      [⟨"debug", "MCP server stdout", [("output", output), ("pid", toString pid), ("sessionId", sessionId)]⟩,
       ⟨"info", "MCP stdout", [("output", output), ("pid", toString pid), ("sessionId", sessionId)]⟩]
    else []
  | .stderrData chunk =>
    let err := chunk.trim
    if err ≠ "" then
      [⟨"warn", "MCP server stderr", [("error", err), ("pid", toString pid), ("sessionId", sessionId)]⟩,
       ⟨"error", "MCP stderr", [("error", err), ("pid", toString pid), ("sessionId", sessionId)]⟩]
    else []

/-- The JSON-RPC request object written by `callMcpMethod`
(mcpManager.js 151-159): `{jsonrpc, id, method:'tools/call',
params:{name, arguments}}`.  Argument values are modelled as strings. -/
structure JsonRpcRequest where
  jsonrpc : String
  id : String
  method : String
  paramsName : String
  paramsArguments : List (String × String)
deriving DecidableEq, Repr

def buildMcpRequest (requestId toolName : String)
    (args : List (String × String)) : JsonRpcRequest :=
  { jsonrpc := "2.0", id := requestId, method := "tools/call"
    paramsName := toolName, paramsArguments := args }

/-- `const { lifxApiKey, ...params } = req.body` in the
`/api/lifx/:action` handler: every body field except `lifxApiKey`. -/
def lifxEndpointParams (body : List (String × String)) : List (String × String) :=
  body.filter (fun kv => !(kv.1 == "lifxApiKey"))

/-- Everything one `/api/lifx/:action` request emits toward the outside
world that could carry the credential: the spawn configuration, the
JSON-RPC body written to the child, and the log records of the
endpoint, the supervisor and the correlator. -/
structure LifxActionRun where
  spawn : SpawnConfig
  request : JsonRpcRequest
  logs : List LogRecord
deriving DecidableEq, Repr

/-- One end-to-end run of the `/api/lifx/:action` handler (success
path), assembled from the source call sites: the endpoint log, the
spawn + its event logs, the `callMcpMethod` request and its
request-sent log, the completion log, and the cleanup log. -/
def runLifxAction (action : String) (body : List (String × String))
    (sessionId requestId rpcId : String) (pid : Nat)
    (events : List ProcEvent) (parentLogLevel : Option String) : LifxActionRun :=
  let params := lifxEndpointParams body
  let lifxApiKey := (alistGet body "lifxApiKey").getD ""
  { spawn := spawnMcpServerConfig lifxApiKey (some sessionId) parentLogLevel
    request := buildMcpRequest rpcId action params
    logs :=
      [⟨"info", "Direct LIFX control",
        [("requestId", requestId), ("sessionId", sessionId), ("action", action),
         ("params", String.intercalate "," (params.map (·.1)))]⟩] ++
      (events.map (spawnEventLogs sessionId pid)).flatten ++
      [⟨"debug", "MCP method request sent",
        [("method", action), ("requestId", rpcId), ("sessionId", sessionId)]⟩,
       ⟨"info", "LIFX control completed",
        [("requestId", requestId), ("sessionId", sessionId), ("action", action),
         ("success", "true")]⟩,
       ⟨"debug", "MCP process cleanup initiated", [("sessionId", sessionId)]⟩] }

/-! ## Session-isolated log sink
(`isSystemLog`, `addLogToStorage`, `getLogsForSession` in the server
file, monitor-usage.sh lines 589-708). -/

/-- `message.toLowerCase()`. -/
def jsToLower (s : String) : String := String.mk (s.data.map Char.toLower)

/-- Character-list helper: does the haystack start with the needle? -/
def startsWithChars : List Char → List Char → Bool
  | [], _ => true
  | _ :: _, [] => false
  | a :: as, b :: bs => a == b && startsWithChars as bs

/-- Character-list helper: does the needle occur anywhere? -/
def hasSubChars (needle : List Char) : List Char → Bool
  | [] => startsWithChars needle []
  | c :: cs => startsWithChars needle (c :: cs) || hasSubChars needle cs

/-- JS `hay.includes(needle)`. -/
def jsIncludes (hay needle : String) : Bool := hasSubChars needle.data hay.data

/-- The fixed operational keyword list of `isSystemLog`. -/
def systemKeywords : List String :=
  ["server started", "server stopped", "configuration loaded",
   "session limits initialized", "database connected", "redis connected",
   "critical error", "server health", "memory usage", "startup"]

/-- `isSystemLog(message, meta)` (monitor-usage.sh 603-631), with
`meta.sessionId` and `meta.level` passed explicitly.  Returns `true`
iff a keyword matches, or there is no session id and the message is
critical (`error` level and mentioning server/critical) or mentions
`server` at any level. -/
def isSystemLog (message : String) (sessionId : Option String)
    (level : Option String) : Bool :=
  let messageStr := jsToLower message
  let isSystemKeyword := systemKeywords.any (fun k => jsIncludes messageStr k)
  let hasNoSession := !(jsTruthy sessionId)
  let isCritical := (level == some "error") &&
    (jsIncludes messageStr "server" || jsIncludes messageStr "critical")
  isSystemKeyword || (hasNoSession && (isCritical || jsIncludes messageStr "server"))

/-- One stored log entry (monitor-usage.sh 635-640): the metadata is
kept as its session id plus the derived `logType` tag
(`'session'` when a session id was present in the metadata,
`'system'` otherwise). -/
structure LogEntry where
  timestamp : Nat
  level : String
  message : String
  metaSessionId : Option String
  logType : String
deriving DecidableEq, Repr

/-- The two storage areas (`type` argument: `'backend'` or `'mcp'`). -/
inductive LogArea where
  | backend
  | mcp
deriving DecidableEq, Repr

/-- One `{ backend: [], mcp: [] }` buffer pair. -/
structure AreaBuffers where
  backend : List LogEntry
  mcp : List LogEntry
deriving DecidableEq, Repr

def emptyAreaBuffers : AreaBuffers := ⟨[], []⟩

def AreaBuffers.get (b : AreaBuffers) : LogArea → List LogEntry
  | .backend => b.backend
  | .mcp => b.mcp

def AreaBuffers.set (b : AreaBuffers) : LogArea → List LogEntry → AreaBuffers
  | .backend, l => { b with backend := l }
  | .mcp, l => { b with mcp := l }

/-- `logStorage` (monitor-usage.sh 589-600): the shared system buffers
plus the per-session map, modelled as an insertion-ordered association
list (JS `Map` iteration order is insertion order). -/
structure LogStorage where
  system : AreaBuffers
  sessions : List (String × AreaBuffers)
deriving DecidableEq, Repr

def emptyLogStorage : LogStorage := ⟨emptyAreaBuffers, []⟩

def maxLogEntries : Nat := 500
def maxSessions : Nat := 50

/-- `push` followed by `slice(-maxLogEntries)` when over the limit:
append, then keep only the newest `maxLogEntries` entries. -/
def capPush (l : List LogEntry) (e : LogEntry) : List LogEntry :=
  let l' := l ++ [e]
  if l'.length > maxLogEntries then l'.drop (l'.length - maxLogEntries) else l'

/-- The entry object built at the top of `addLogToStorage`
(monitor-usage.sh 635-640). -/
def mkLogEntry (level message : String) (msid : Option String) (now : Nat) : LogEntry :=
  { timestamp := now, level := level, message := message
    metaSessionId := msid
    logType := if jsTruthy msid then "session" else "system" }

/-- `addLogToStorage(type, level, message, meta)`
(monitor-usage.sh 634-679).  Builds the entry (tagging `logType` from
the presence of `meta.sessionId`), then stores it in the system buffer
when `isSystemLog`, else in the named session's buffer (creating it,
evicting the oldest session at the `maxSessions` limit), else drops
it. -/
def addLogToStorage (type : LogArea) (level message : String)
    (metaSessionId : Option String) (now : Nat) (st : LogStorage) : LogStorage :=
  let entry : LogEntry := mkLogEntry level message metaSessionId now
  if isSystemLog message metaSessionId (some level) then
    { st with system := st.system.set type (capPush (st.system.get type) entry) }
  else if jsTruthy metaSessionId then
    let sid := metaSessionId.getD ""
    let sessions :=
      if (alistGet st.sessions sid).isNone then
        let pruned :=
          if st.sessions.length ≥ maxSessions then st.sessions.drop 1 else st.sessions
        alistSet pruned sid emptyAreaBuffers
      else st.sessions
    let buf := (alistGet sessions sid).getD emptyAreaBuffers
    { st with sessions := alistSet sessions sid (buf.set type (capPush (buf.get type) entry)) }
  else st

/-- Query filters of `getLogsForSession` (level, since, limit). -/
structure QueryOptions where
  level : Option String
  since : Option Nat
  limit : Option Nat
deriving DecidableEq, Repr

/-- JS `array.slice(-n)`: the last `n` elements — except that
`slice(-0)` is `slice(0)`, the whole array. -/
def jsSliceLast (n : Nat) (l : List LogEntry) : List LogEntry :=
  if n = 0 then l else l.drop (l.length - n)

/-- Chronological order used by the query's comparator
`(a, b) => new Date(a.timestamp) - new Date(b.timestamp)`. -/
def tsLe (a b : LogEntry) : Prop := a.timestamp ≤ b.timestamp

instance : DecidableRel tsLe := fun a b => Nat.decLe a.timestamp b.timestamp

/-- `getLogsForSession(sessionId, type, options)`
(monitor-usage.sh 682-708): merge the system buffer with the querying
session's own buffer, sort chronologically (JS `sort` is stable;
modelled by the stable `insertionSort`), apply the `level` and `since`
filters, and keep the last `min(limit ?? 25, 100)` entries. -/
def getLogsForSession (sessionId : String) (type : LogArea)
    (opts : QueryOptions) (st : LogStorage) : List LogEntry :=
  let systemLogs := st.system.get type
  let sessionLogs := ((alistGet st.sessions sessionId).map (·.get type)).getD []
  let combinedLogs := List.insertionSort tsLe (systemLogs ++ sessionLogs)
  let filtered1 :=
    if jsTruthy opts.level then
      combinedLogs.filter (fun log => log.level == opts.level.getD "")
    else combinedLogs
  let filtered2 :=
    match opts.since with
    | some d => filtered1.filter (fun log => d ≤ log.timestamp)
    | none => filtered1
  let limitNum := min (opts.limit.getD 25) 100
  jsSliceLast limitNum filtered2

/-- **C7** (confirmed).  The credential reaches the Tool Process only
through the spawn environment: the spawn env's `LIFX_TOKEN` is exactly
the submitted key, while the argv, the JSON-RPC body written to the
child and every log record emitted along the way are identical for two
requests that differ only in the credential value (same non-credential
body fields, same session, same child events). -/
theorem runLifxAction_credential_isolated
    (action : String) (body₁ body₂ : List (String × String))
    (sessionId requestId rpcId : String) (pid : Nat)
    (events : List ProcEvent) (parentLogLevel : Option String)
    (hbody : lifxEndpointParams body₁ = lifxEndpointParams body₂) :
    (runLifxAction action body₁ sessionId requestId rpcId pid events parentLogLevel).spawn.envLifxToken
        = (alistGet body₁ "lifxApiKey").getD "" ∧
    (runLifxAction action body₁ sessionId requestId rpcId pid events parentLogLevel).spawn.cmd
        = "node" ∧
    (runLifxAction action body₁ sessionId requestId rpcId pid events parentLogLevel).spawn.args
        = (runLifxAction action body₂ sessionId requestId rpcId pid events parentLogLevel).spawn.args ∧
    (runLifxAction action body₁ sessionId requestId rpcId pid events parentLogLevel).request
        = (runLifxAction action body₂ sessionId requestId rpcId pid events parentLogLevel).request ∧
    (runLifxAction action body₁ sessionId requestId rpcId pid events parentLogLevel).logs
        = (runLifxAction action body₂ sessionId requestId rpcId pid events parentLogLevel).logs := by
  refine ⟨rfl, rfl, rfl, ?_, ?_⟩ <;>
    simp [runLifxAction, buildMcpRequest, hbody]

/-- Witness for C7 at two concrete bodies differing only in the
credential value. -/
theorem runLifxAction_credential_isolated_witness :
    lifxEndpointParams [("lifxApiKey", "secret-A"), ("selector", "all")] =
        lifxEndpointParams [("lifxApiKey", "secret-B"), ("selector", "all")] ∧
    (runLifxAction "toggle" [("lifxApiKey", "secret-A"), ("selector", "all")]
        "sess-1" "req-1" "rpc-1" 77 [ProcEvent.spawned] none).logs =
      (runLifxAction "toggle" [("lifxApiKey", "secret-B"), ("selector", "all")]
        "sess-1" "req-1" "rpc-1" 77 [ProcEvent.spawned] none).logs :=
  ⟨by decide,
   (runLifxAction_credential_isolated "toggle"
      [("lifxApiKey", "secret-A"), ("selector", "all")]
      [("lifxApiKey", "secret-B"), ("selector", "all")]
      "sess-1" "req-1" "rpc-1" 77 [ProcEvent.spawned] none (by decide)).2.2.2.2⟩

/-! ## Helper lemmas: association lists, capped buffers, area buffers -/

theorem alistGet_cons_ne {α : Type} (a : String) (b : α) (l : List (String × α))
    (k : String) (h : ¬a = k) : alistGet ((a, b) :: l) k = alistGet l k := by
  unfold alistGet
  rw [List.find?_cons_of_neg]
  simpa using h

theorem alistGet_cons_self {α : Type} (a : String) (b : α) (l : List (String × α)) :
    alistGet ((a, b) :: l) a = some b := by
  unfold alistGet
  rw [List.find?_cons_of_pos] <;> simp

theorem alistGet_alistSet {α : Type} (m : List (String × α)) (k k' : String) (v : α) :
    alistGet (alistSet m k v) k' = if k' = k then some v else alistGet m k' := by
  induction m with
  | nil =>
    by_cases h : k' = k
    · simp [alistSet, h, alistGet_cons_self]
    · rw [alistSet, alistGet_cons_ne _ _ _ _ (fun hh => h hh.symm), if_neg h]
  | cons kv rest ih =>
    obtain ⟨a, b⟩ := kv
    by_cases hak : a = k
    · subst hak
      simp only [alistSet, beq_self_eq_true, if_true]
      by_cases h : k' = a
      · subst h
        simp [alistGet_cons_self]
      · rw [alistGet_cons_ne _ _ _ _ (fun hh => h hh.symm),
          alistGet_cons_ne _ _ _ _ (fun hh => h hh.symm), if_neg h]
    · have hakb : (a == k) = false := by simpa using hak
      simp only [alistSet, hakb, Bool.false_eq_true, if_false]
      by_cases hk'a : k' = a
      · subst hk'a
        rw [alistGet_cons_self, alistGet_cons_self, if_neg hak]
      · rw [alistGet_cons_ne _ _ _ _ (fun hh => hk'a hh.symm),
          alistGet_cons_ne _ _ _ _ (fun hh => hk'a hh.symm), ih]

theorem mem_alistSet {α : Type} (m : List (String × α)) (k : String) (v : α) :
    ∀ p ∈ alistSet m k v, p = (k, v) ∨ p ∈ m := by
  induction m with
  | nil => simp [alistSet]
  | cons kv rest ih =>
    obtain ⟨a, b⟩ := kv
    intro p hp
    by_cases hak : a == k
    · simp only [alistSet, hak, if_true, List.mem_cons] at hp
      rcases hp with h | h
      · exact Or.inl h
      · exact Or.inr (List.mem_cons_of_mem _ h)
    · simp only [alistSet, hak, Bool.false_eq_true, if_false, List.mem_cons] at hp
      rcases hp with h | h
      · exact Or.inr (by simp [h])
      · rcases ih p h with h' | h'
        · exact Or.inl h'
        · exact Or.inr (List.mem_cons_of_mem _ h')

theorem alistGet_eq_none {α : Type} (m : List (String × α)) (k : String)
    (h : alistGet m k = none) : ∀ p ∈ m, p.1 ≠ k := by
  intro p hp
  simp only [alistGet, Option.map_eq_none', List.find?_eq_none] at h
  simpa using h p hp

theorem alistGet_mem {α : Type} (m : List (String × α)) (k : String) (v : α)
    (h : alistGet m k = some v) : (k, v) ∈ m := by
  simp only [alistGet, Option.map_eq_some'] at h
  obtain ⟨p, hfind, hv⟩ := h
  have hmem := List.mem_of_find?_eq_some hfind
  have hkey : p.1 = k := by simpa using List.find?_some hfind
  obtain ⟨a, b⟩ := p
  simp only at hkey hv
  subst hkey hv
  exact hmem

theorem alistSet_keys_of_isSome {α : Type} (m : List (String × α)) (k : String) (v : α)
    (h : (alistGet m k).isSome) : (alistSet m k v).map (·.1) = m.map (·.1) := by
  induction m with
  | nil => simp [alistGet] at h
  | cons kv rest ih =>
    obtain ⟨a, b⟩ := kv
    by_cases hak : a = k
    · subst hak
      simp [alistSet]
    · have hakb : (a == k) = false := by simpa using hak
      simp only [alistSet, hakb, Bool.false_eq_true, if_false, List.map_cons]
      have h' : (alistGet rest k).isSome := by
        rwa [alistGet_cons_ne _ _ _ _ hak] at h
      rw [ih h']

theorem alistSet_keys_of_none {α : Type} (m : List (String × α)) (k : String) (v : α)
    (h : alistGet m k = none) : (alistSet m k v).map (·.1) = m.map (·.1) ++ [k] := by
  induction m with
  | nil => simp [alistSet]
  | cons kv rest ih =>
    obtain ⟨a, b⟩ := kv
    by_cases hak : a = k
    · exfalso
      exact alistGet_eq_none _ _ h (a, b) (by simp) hak
    · have hakb : (a == k) = false := by simpa using hak
      simp only [alistSet, hakb, Bool.false_eq_true, if_false, List.map_cons, List.cons_append,
        List.cons.injEq, true_and]
      have h' : alistGet rest k = none := by
        rwa [alistGet_cons_ne _ _ _ _ hak] at h
      exact ih h'

theorem capPush_eq (l : List LogEntry) (e : LogEntry) :
    capPush l e = l.drop (l.length + 1 - maxLogEntries) ++ [e] := by
  have hM : maxLogEntries = 500 := rfl
  simp only [capPush, List.length_append, List.length_singleton]
  by_cases h : l.length + 1 > maxLogEntries
  · rw [if_pos h, List.drop_append_of_le_length (by omega)]
  · rw [if_neg h]
    have h0 : l.length + 1 - maxLogEntries = 0 := by omega
    rw [h0, List.drop_zero]

theorem capPush_length (l : List LogEntry) (e : LogEntry) :
    (capPush l e).length = min (l.length + 1) maxLogEntries := by
  have hM : maxLogEntries = 500 := rfl
  rw [capPush_eq]
  simp only [List.length_append, List.length_singleton, List.length_drop]
  omega

theorem capPush_length_le (l : List LogEntry) (e : LogEntry) :
    (capPush l e).length ≤ maxLogEntries := by
  have hM : maxLogEntries = 500 := rfl
  rw [capPush_length]
  omega

theorem capPush_getLast (l : List LogEntry) (e : LogEntry) :
    (capPush l e).getLast? = some e := by
  rw [capPush_eq]
  exact List.getLast?_concat _

theorem mem_capPush_self (l : List LogEntry) (e : LogEntry) :
    e ∈ capPush l e := by
  rw [capPush_eq]
  simp

theorem mem_capPush {l : List LogEntry} {e x : LogEntry} (h : x ∈ capPush l e) :
    x ∈ l ∨ x = e := by
  rw [capPush_eq] at h
  rcases List.mem_append.mp h with h' | h'
  · exact Or.inl (List.mem_of_mem_drop h')
  · exact Or.inr (by simpa using h')

theorem AreaBuffers.get_set (b : AreaBuffers) (a a' : LogArea) (l : List LogEntry) :
    (b.set a l).get a' = if a' = a then l else b.get a' := by
  cases a <;> cases a' <;> simp [AreaBuffers.get, AreaBuffers.set]


/-! ## Theorems for claim C5 -/

/-- The effect of the system-store branch of `addLogToStorage`:
the entry is appended (with capping) to the system buffer of the
given area and nothing else changes. -/
def systemPushed (st : LogStorage) (type : LogArea) (e : LogEntry) : LogStorage :=
  { st with system := st.system.set type (capPush (st.system.get type) e) }

/-- **C5** (counterexample).  The claim says classification is
`system` "when the entry carries no session identifier and is
error-level", and that no emission is silently dropped from both
stores.  The code instead requires a sessionless error message to
contain `server` or `critical` (or a keyword) to be system-classified:
an error-level `"disk failure"` with no session id is classified
neither system nor session and is dropped — the storage is unchanged. -/
theorem addLogToStorage_sessionless_error_dropped :
    isSystemLog "disk failure" none (some "error") = false ∧
    addLogToStorage LogArea.backend "error" "disk failure" none 0 emptyLogStorage =
      emptyLogStorage := by
  constructor
  · decide
  · decide

/-- **C5** (amended).  Every recorded emission is stored in *at most*
one of the two disjoint stores, by this classification: the system
store exactly when `isSystemLog` holds (a fixed keyword matches, or
there is no session identifier and the message mentions `server`, or
is error-level mentioning `critical`); otherwise the named session's
store when a session identifier is present (the new entry appended at
the end); otherwise — no session identifier and not system-classified —
the emission is silently dropped and no store changes. -/
theorem addLogToStorage_classification
    (type : LogArea) (level message : String) (msid : Option String)
    (now : Nat) (st : LogStorage) :
    (isSystemLog message msid (some level) = true →
      addLogToStorage type level message msid now st =
        systemPushed st type (mkLogEntry level message msid now)) ∧
    (isSystemLog message msid (some level) = false → jsTruthy msid = true →
      (addLogToStorage type level message msid now st).system = st.system ∧
      ∃ buf, alistGet (addLogToStorage type level message msid now st).sessions
          (msid.getD "") = some buf ∧
        (buf.get type).getLast? = some (mkLogEntry level message msid now)) ∧
    (isSystemLog message msid (some level) = false → jsTruthy msid = false →
      addLogToStorage type level message msid now st = st) := by
  refine ⟨?_, ?_, ?_⟩
  · intro h
    simp only [addLogToStorage, systemPushed, h, if_true]
  · intro h ht
    simp only [addLogToStorage, h, ht, Bool.false_eq_true, if_false, if_true]
    exact ⟨trivial, _, alistGet_alistSet_self _ _ _,
      by rw [AreaBuffers.get_set, if_pos rfl, capPush_getLast]⟩
  · intro h ht
    simp only [addLogToStorage, h, ht, Bool.false_eq_true, if_false]

/-- Witness for the amended C5 theorem: one concrete emission of each
of the three kinds (system-classified, session-classified, dropped). -/
theorem addLogToStorage_classification_witness :
    (isSystemLog "server started" (some "B") (some "info") = true ∧
      addLogToStorage LogArea.backend "info" "server started" (some "B") 3 emptyLogStorage =
        systemPushed emptyLogStorage LogArea.backend
          (mkLogEntry "info" "server started" (some "B") 3)) ∧
    (isSystemLog "hello" (some "A") (some "info") = false ∧ jsTruthy (some "A") = true ∧
      (addLogToStorage LogArea.backend "info" "hello" (some "A") 4 emptyLogStorage).system =
        emptyLogStorage.system ∧
      ∃ buf, alistGet
          (addLogToStorage LogArea.backend "info" "hello" (some "A") 4 emptyLogStorage).sessions
          ((some "A").getD "") = some buf ∧
        (buf.get LogArea.backend).getLast? = some (mkLogEntry "info" "hello" (some "A") 4)) ∧
    (isSystemLog "hello" none (some "info") = false ∧ jsTruthy (none : Option String) = false ∧
      addLogToStorage LogArea.backend "info" "hello" none 5 emptyLogStorage = emptyLogStorage) :=
  ⟨⟨by decide,
    (addLogToStorage_classification LogArea.backend "info" "server started" (some "B") 3
      emptyLogStorage).1 (by decide)⟩,
   ⟨by decide, by decide,
    (addLogToStorage_classification LogArea.backend "info" "hello" (some "A") 4
      emptyLogStorage).2.1 (by decide) (by decide)⟩,
   ⟨by decide, by decide,
    (addLogToStorage_classification LogArea.backend "info" "hello" none 5
      emptyLogStorage).2.2 (by decide) (by decide)⟩⟩

/-! ## Theorems for claim C8 -/

theorem alistGet_eq_none_of_forall {α : Type} (m : List (String × α)) (k : String)
    (h : ∀ p ∈ m, p.1 ≠ k) : alistGet m k = none := by
  simp only [alistGet, Option.map_eq_none', List.find?_eq_none]
  intro p hp
  simpa using h p hp

theorem alistSet_length_of_isSome {α : Type} (m : List (String × α)) (k : String) (v : α)
    (h : (alistGet m k).isSome) : (alistSet m k v).length = m.length := by
  have hk := alistSet_keys_of_isSome m k v h
  have h1 : (alistSet m k v).length = ((alistSet m k v).map (·.1)).length :=
    (List.length_map _ _).symm
  rw [h1, hk, List.length_map]

theorem alistSet_length_of_none {α : Type} (m : List (String × α)) (k : String) (v : α)
    (h : alistGet m k = none) : (alistSet m k v).length = m.length + 1 := by
  have hk := alistSet_keys_of_none m k v h
  have h1 : (alistSet m k v).length = ((alistSet m k v).map (·.1)).length :=
    (List.length_map _ _).symm
  rw [h1, hk]
  simp

theorem alistSet_length_le {α : Type} (m : List (String × α)) (k : String) (v : α) :
    (alistSet m k v).length ≤ m.length + 1 := by
  by_cases h : (alistGet m k).isSome
  · rw [alistSet_length_of_isSome m k v h]
    omega
  · rw [alistSet_length_of_none m k v (by simpa [Option.isNone_iff_eq_none] using h)]

/-- `addLogToStorage` keeps every buffer within `maxLogEntries` and the
session map within `maxSessions`. -/
def BoundedStorage (st : LogStorage) : Prop :=
  (∀ area, (st.system.get area).length ≤ maxLogEntries) ∧
  st.sessions.length ≤ maxSessions ∧
  (∀ p ∈ st.sessions, ∀ area, ((p : String × AreaBuffers).2.get area).length ≤ maxLogEntries)

theorem boundedStorage_empty : BoundedStorage emptyLogStorage := by
  refine ⟨?_, by simp [emptyLogStorage, maxSessions], by simp [emptyLogStorage]⟩
  intro area
  cases area <;> simp [emptyLogStorage, emptyAreaBuffers, AreaBuffers.get, maxLogEntries]

theorem boundedStorage_addLog (type : LogArea) (level message : String)
    (msid : Option String) (now : Nat) (st : LogStorage) (h : BoundedStorage st) :
    BoundedStorage (addLogToStorage type level message msid now st) := by
  obtain ⟨hsys, hlen, hbuf⟩ := h
  have hM : maxSessions = 50 := rfl
  by_cases h1 : isSystemLog message msid (some level)
  · simp only [addLogToStorage, h1, if_true]
    refine ⟨?_, hlen, hbuf⟩
    intro area
    rw [AreaBuffers.get_set]
    by_cases ha : area = type
    · rw [if_pos ha]
      exact capPush_length_le _ _
    · rw [if_neg ha]
      exact hsys area
  · have h1f : isSystemLog message msid (some level) = false := by simpa using h1
    by_cases h2 : jsTruthy msid
    · simp only [addLogToStorage, h1f, Bool.false_eq_true, if_false, h2, if_true]
      set sid := msid.getD "" with hsid
      by_cases h3 : (alistGet st.sessions sid).isNone
      · simp only [h3, if_true]
        set pruned := if st.sessions.length ≥ maxSessions then st.sessions.drop 1
          else st.sessions with hpruned
        have hprunedsub : ∀ p ∈ pruned, p ∈ st.sessions := by
          intro p hp
          rw [hpruned] at hp
          by_cases hc : st.sessions.length ≥ maxSessions
          · rw [if_pos hc] at hp
            exact List.mem_of_mem_drop hp
          · rwa [if_neg hc] at hp
        have hprunedlen : pruned.length + 1 ≤ maxSessions := by
          rw [hpruned]
          by_cases hc : st.sessions.length ≥ maxSessions
          · rw [if_pos hc]
            simp only [List.length_drop]
            omega
          · rw [if_neg hc]
            omega
        have hnone : alistGet pruned sid = none := by
          apply alistGet_eq_none_of_forall
          intro p hp
          exact alistGet_eq_none _ _ (by simpa [Option.isNone_iff_eq_none] using h3) p
            (hprunedsub p hp)
        have hmid : (alistGet (alistSet pruned sid emptyAreaBuffers) sid).isSome := by
          rw [alistGet_alistSet_self]
          rfl
        refine ⟨hsys, ?_, ?_⟩
        · rw [alistSet_length_of_isSome _ _ _ hmid, alistSet_length_of_none _ _ _ hnone]
          omega
        · intro p hp area
          rcases mem_alistSet _ _ _ p hp with hp' | hp'
          · subst hp'
            rw [AreaBuffers.get_set]
            by_cases ha : area = type
            · rw [if_pos ha]
              exact capPush_length_le _ _
            · rw [if_neg ha]
              rw [alistGet_alistSet_self]
              cases area <;>
                simp [emptyAreaBuffers, AreaBuffers.get, maxLogEntries]
          · rcases mem_alistSet _ _ _ p hp' with hp2 | hp2
            · subst hp2
              cases area <;>
                simp [emptyAreaBuffers, AreaBuffers.get, maxLogEntries]
            · exact hbuf p (hprunedsub p hp2) area
      · have h3f : (alistGet st.sessions sid).isNone = false := by
          cases hx : (alistGet st.sessions sid).isNone
          · rfl
          · exact absurd hx h3
        simp only [h3f, Bool.false_eq_true, if_false]
        have h3s : (alistGet st.sessions sid).isSome := by
          rw [Option.isSome_iff_ne_none]
          simpa [Option.isNone_iff_eq_none] using h3
        refine ⟨hsys, ?_, ?_⟩
        · rw [alistSet_length_of_isSome _ _ _ h3s]
          exact hlen
        · intro p hp area
          rcases mem_alistSet _ _ _ p hp with hp' | hp'
          · subst hp'
            rw [AreaBuffers.get_set]
            by_cases ha : area = type
            · rw [if_pos ha]
              exact capPush_length_le _ _
            · rw [if_neg ha]
              obtain ⟨b, hb⟩ := Option.isSome_iff_exists.mp h3s
              rw [hb]
              exact hbuf (sid, b) (alistGet_mem _ _ _ hb) area
          · exact hbuf p hp' area
    · have h2f : jsTruthy msid = false := by simpa using h2
      simp only [addLogToStorage, h1f, Bool.false_eq_true, if_false, h2f]
      exact ⟨hsys, hlen, hbuf⟩

/-- One recorded emission, for folding whole call histories of
`addLogToStorage`. -/
structure LogOp where
  type : LogArea
  level : String
  message : String
  metaSessionId : Option String
  now : Nat
deriving DecidableEq, Repr

def applyLogOps (ops : List LogOp) (st : LogStorage) : LogStorage :=
  ops.foldl (fun s op => addLogToStorage op.type op.level op.message op.metaSessionId op.now s) st

theorem applyLogOps_append (a b : List LogOp) (st : LogStorage) :
    applyLogOps (a ++ b) st = applyLogOps b (applyLogOps a st) := by
  simp [applyLogOps, List.foldl_append]

theorem boundedStorage_applyLogOps (ops : List LogOp) (st : LogStorage)
    (h : BoundedStorage st) : BoundedStorage (applyLogOps ops st) := by
  induction ops generalizing st with
  | nil => exact h
  | cons op rest ih =>
    simp only [applyLogOps, List.foldl_cons]
    exact ih _ (boundedStorage_addLog _ _ _ _ _ _ h)

/-- The entry logged in the capacity scenario: session `"A"`, plain
message, timestamp `i`. -/
def scenarioEntry (i : Nat) : LogEntry := mkLogEntry "info" "hello" (some "A") i

def scenarioOp (i : Nat) : LogOp := ⟨LogArea.backend, "info", "hello", some "A", i⟩

/-- Folding `capPush` from an empty buffer. -/
def capFold (es : List LogEntry) : List LogEntry := es.foldl capPush []

theorem capFold_concat (es : List LogEntry) (e : LogEntry) :
    capFold (es ++ [e]) = capPush (capFold es) e := by
  simp [capFold, List.foldl_append]

theorem capPush_of_lt (l : List LogEntry) (e : LogEntry) (h : l.length < maxLogEntries) :
    capPush l e = l ++ [e] := by
  rw [capPush_eq]
  have h0 : l.length + 1 - maxLogEntries = 0 := by omega
  rw [h0, List.drop_zero]

theorem foldl_capPush_of_le (es acc : List LogEntry)
    (h : acc.length + es.length ≤ maxLogEntries) : es.foldl capPush acc = acc ++ es := by
  induction es generalizing acc with
  | nil => simp
  | cons e rest ih =>
    rw [List.foldl_cons, capPush_of_lt _ _ (by simp at h; omega)]
    rw [ih _ (by simp at h ⊢; omega)]
    simp

theorem capFold_of_le (es : List LogEntry) (h : es.length ≤ maxLogEntries) :
    capFold es = es := by
  have h' := foldl_capPush_of_le es [] (by simpa using h)
  simpa [capFold] using h'

theorem scenario_step (i : Nat) (sys : AreaBuffers) (l m : List LogEntry) :
    addLogToStorage LogArea.backend "info" "hello" (some "A") i
        ⟨sys, [("A", ⟨l, m⟩)]⟩ =
      ⟨sys, [("A", ⟨capPush l (scenarioEntry i), m⟩)]⟩ := by
  have hsys : isSystemLog "hello" (some "A") (some "info") = false := by decide
  have ht : jsTruthy (some "A") = true := by decide
  simp [addLogToStorage, hsys, ht, alistGet_cons_self, alistSet, AreaBuffers.set,
    AreaBuffers.get, scenarioEntry]

theorem scenario_state (k : Nat) :
    applyLogOps ((List.range (k + 1)).map scenarioOp) emptyLogStorage =
      ⟨emptyAreaBuffers, [("A", ⟨capFold ((List.range (k + 1)).map scenarioEntry), []⟩)]⟩ := by
  induction k with
  | zero => decide
  | succ n ih =>
    rw [List.range_succ, List.map_append, List.map_append, applyLogOps_append, ih]
    simp only [List.map_cons, List.map_nil]
    rw [capFold_concat]
    show addLogToStorage LogArea.backend "info" "hello" (some "A") (n + 1) _ = _
    exact scenario_step _ _ _ _

theorem mem_range'_ge (s n i : Nat) (h : i ∈ List.range' s n) : s ≤ i := by
  induction n generalizing s with
  | zero => simp [List.range'] at h
  | succ m ih =>
    simp only [List.range'] at h
    rcases List.mem_cons.mp h with h' | h'
    · omega
    · have := ih (s + 1) h'
      omega

theorem addLog_evicts_oldest (st : LogStorage) (type : LogArea) (level message : String)
    (msid : Option String) (now : Nat)
    (h1 : isSystemLog message msid (some level) = false) (h2 : jsTruthy msid = true)
    (h3 : alistGet st.sessions (msid.getD "") = none)
    (h4 : st.sessions.length = maxSessions) :
    (addLogToStorage type level message msid now st).sessions.map (·.1) =
      ((st.sessions.drop 1).map (·.1)) ++ [msid.getD ""] := by
  simp only [addLogToStorage, h1, Bool.false_eq_true, if_false, h2, if_true]
  have h3n : (alistGet st.sessions (msid.getD "")).isNone = true := by simp [h3]
  simp only [h3n, if_true]
  have hge : st.sessions.length ≥ maxSessions := by omega
  rw [if_pos hge]
  have hnone : alistGet (st.sessions.drop 1) (msid.getD "") = none := by
    apply alistGet_eq_none_of_forall
    intro p hp
    exact alistGet_eq_none _ _ h3 p (List.mem_of_mem_drop hp)
  have hmid :
      (alistGet (alistSet (st.sessions.drop 1) (msid.getD "") emptyAreaBuffers)
        (msid.getD "")).isSome := by
    rw [alistGet_alistSet_self]
    rfl
  rw [alistSet_keys_of_isSome _ _ _ hmid, alistSet_keys_of_none _ _ _ hnone]

theorem scenario_buffer_eq :
    capFold ((List.range 501).map scenarioEntry) =
      ((List.range 501).map scenarioEntry).drop 1 := by
  have hrange : List.range 501 = List.range 500 ++ [500] := List.range_succ 500
  rw [hrange, List.map_append]
  simp only [List.map_cons, List.map_nil]
  rw [capFold_concat, capFold_of_le _ (by simp [maxLogEntries]), capPush_eq,
    List.drop_append_of_le_length (by simp)]
  simp [maxLogEntries]

theorem scenario_drop_eq_range' :
    ((List.range 501).map scenarioEntry).drop 1 = (List.range' 1 500).map scenarioEntry := by
  have h501 : List.range 501 = 0 :: List.range' 1 500 := by
    rw [List.range_eq_range']
    exact List.range'_succ 0 500 1
  rw [h501]
  simp

/-- **C8** (confirmed).  Bounded log storage: starting from the empty
storage, every history of `addLogToStorage` calls keeps each buffer
(system and per-session, both areas) at ≤ 500 entries and the session
map at ≤ 50 sessions; logging 501 entries into one session's backend
buffer leaves exactly the 501-entry list with only its first (oldest)
element dropped — 500 entries, the newest present, the oldest gone —
and when a new session must be admitted at the 50-session limit,
exactly the first-inserted (least-recently-created) session's entire
buffer is evicted and the new session appended. -/
theorem log_storage_bounded :
    (∀ (ops : List LogOp) (st : LogStorage), BoundedStorage st →
        BoundedStorage (applyLogOps ops st)) ∧
    BoundedStorage emptyLogStorage ∧
    (applyLogOps ((List.range 501).map scenarioOp) emptyLogStorage =
        ⟨emptyAreaBuffers, [("A", ⟨((List.range 501).map scenarioEntry).drop 1, []⟩)]⟩ ∧
      (((List.range 501).map scenarioEntry).drop 1).length = 500 ∧
      scenarioEntry 500 ∈ ((List.range 501).map scenarioEntry).drop 1 ∧
      scenarioEntry 0 ∉ ((List.range 501).map scenarioEntry).drop 1) ∧
    (∀ (st : LogStorage) (type : LogArea) (level message : String)
        (msid : Option String) (now : Nat),
        isSystemLog message msid (some level) = false → jsTruthy msid = true →
        alistGet st.sessions (msid.getD "") = none → st.sessions.length = maxSessions →
        (addLogToStorage type level message msid now st).sessions.map (·.1) =
          ((st.sessions.drop 1).map (·.1)) ++ [msid.getD ""]) := by
  refine ⟨boundedStorage_applyLogOps, boundedStorage_empty, ⟨?_, ?_, ?_, ?_⟩,
    addLog_evicts_oldest⟩
  · have hstate : applyLogOps ((List.range 501).map scenarioOp) emptyLogStorage =
        ⟨emptyAreaBuffers, [("A", ⟨capFold ((List.range 501).map scenarioEntry), []⟩)]⟩ :=
      scenario_state 500
    rw [scenario_buffer_eq] at hstate
    exact hstate
  · simp only [List.length_drop, List.length_map, List.length_range]
  · have hdrop : ((List.range 501).map scenarioEntry).drop 1 =
        ((List.range 500).map scenarioEntry).drop 1 ++ [scenarioEntry 500] := by
      rw [List.range_succ, List.map_append]
      simp only [List.map_cons, List.map_nil]
      rw [List.drop_append_of_le_length (by simp)]
    rw [hdrop]
    exact List.mem_append_right _ (List.mem_singleton_self _)
  · rw [scenario_drop_eq_range']
    intro hmem
    obtain ⟨i, hi, hfi⟩ := List.mem_map.mp hmem
    have hts : i = 0 := congrArg LogEntry.timestamp hfi
    have hge := mem_range'_ge 1 500 i hi
    omega

/-- Concrete 50-session map for the eviction witness. -/
def fullSessions : List (String × AreaBuffers) :=
  [("s00", emptyAreaBuffers), ("s01", emptyAreaBuffers), ("s02", emptyAreaBuffers), ("s03", emptyAreaBuffers), ("s04", emptyAreaBuffers), ("s05", emptyAreaBuffers), ("s06", emptyAreaBuffers), ("s07", emptyAreaBuffers), ("s08", emptyAreaBuffers), ("s09", emptyAreaBuffers), ("s10", emptyAreaBuffers), ("s11", emptyAreaBuffers), ("s12", emptyAreaBuffers), ("s13", emptyAreaBuffers), ("s14", emptyAreaBuffers), ("s15", emptyAreaBuffers), ("s16", emptyAreaBuffers), ("s17", emptyAreaBuffers), ("s18", emptyAreaBuffers), ("s19", emptyAreaBuffers), ("s20", emptyAreaBuffers), ("s21", emptyAreaBuffers), ("s22", emptyAreaBuffers), ("s23", emptyAreaBuffers), ("s24", emptyAreaBuffers), ("s25", emptyAreaBuffers), ("s26", emptyAreaBuffers), ("s27", emptyAreaBuffers), ("s28", emptyAreaBuffers), ("s29", emptyAreaBuffers), ("s30", emptyAreaBuffers), ("s31", emptyAreaBuffers), ("s32", emptyAreaBuffers), ("s33", emptyAreaBuffers), ("s34", emptyAreaBuffers), ("s35", emptyAreaBuffers), ("s36", emptyAreaBuffers), ("s37", emptyAreaBuffers), ("s38", emptyAreaBuffers), ("s39", emptyAreaBuffers), ("s40", emptyAreaBuffers), ("s41", emptyAreaBuffers), ("s42", emptyAreaBuffers), ("s43", emptyAreaBuffers), ("s44", emptyAreaBuffers), ("s45", emptyAreaBuffers), ("s46", emptyAreaBuffers), ("s47", emptyAreaBuffers), ("s48", emptyAreaBuffers), ("s49", emptyAreaBuffers)]

set_option maxRecDepth 4000 in
/-- Witness for C8 at concrete inputs: bound preservation applied to a
one-op history from the (bounded) empty storage, and eviction applied
to a storage already holding 50 sessions when session `"x"` logs. -/
theorem log_storage_bounded_witness :
    BoundedStorage (applyLogOps [scenarioOp 0] emptyLogStorage) ∧
    (isSystemLog "hello" (some "x") (some "info") = false ∧
      jsTruthy (some "x") = true ∧
      alistGet (⟨emptyAreaBuffers, fullSessions⟩ : LogStorage).sessions
        ((some "x").getD "") = none ∧
      (⟨emptyAreaBuffers, fullSessions⟩ : LogStorage).sessions.length = maxSessions ∧
      (addLogToStorage LogArea.backend "info" "hello" (some "x") 9
          ⟨emptyAreaBuffers, fullSessions⟩).sessions.map (·.1) =
        ((fullSessions.drop 1).map (·.1)) ++ [(some "x").getD ""]) :=
  ⟨log_storage_bounded.1 [scenarioOp 0] emptyLogStorage log_storage_bounded.2.1,
   ⟨by decide, by decide, by decide, by decide,
    log_storage_bounded.2.2.2 ⟨emptyAreaBuffers, fullSessions⟩ LogArea.backend "info" "hello"
      (some "x") 9 (by decide) (by decide) (by decide) (by decide)⟩⟩

/-! ## Theorems for claim C2 -/

theorem jsTruthy_getD (msid : Option String) (h : jsTruthy msid = true) :
    msid = some (msid.getD "") := by
  cases msid with
  | none => simp [jsTruthy] at h
  | some s => rfl

/-- Invariant: every entry stored in a session's buffer carries that
session's identifier in its metadata. -/
def SessionTagged (st : LogStorage) : Prop :=
  ∀ p ∈ st.sessions, ∀ area : LogArea,
    ∀ e ∈ ((p : String × AreaBuffers).2.get area), e.metaSessionId = some p.1

theorem sessionTagged_empty : SessionTagged emptyLogStorage := by
  intro p hp
  simp [emptyLogStorage] at hp

theorem sessionTagged_addLog (type : LogArea) (level message : String)
    (msid : Option String) (now : Nat) (st : LogStorage) (h : SessionTagged st) :
    SessionTagged (addLogToStorage type level message msid now st) := by
  by_cases h1 : isSystemLog message msid (some level)
  · simp only [addLogToStorage, h1, if_true]
    exact h
  · have h1f : isSystemLog message msid (some level) = false := by simpa using h1
    by_cases h2 : jsTruthy msid
    · simp only [addLogToStorage, h1f, Bool.false_eq_true, if_false, h2, if_true]
      intro p hp area e he
      rcases mem_alistSet _ _ _ p hp with hp' | hp'
      · -- the updated pair for this session id
        subst hp'
        simp only at he ⊢
        rw [AreaBuffers.get_set] at he
        by_cases ha : area = type
        · subst ha
          rw [if_pos rfl] at he
          rcases mem_capPush he with hold | hnew
          · -- an entry already in the buffer looked up for this id
            by_cases h3 : (alistGet st.sessions (msid.getD "")).isNone
            · simp only [h3, if_true, alistGet_alistSet_self, Option.getD_some] at hold
              cases area <;> simp [emptyAreaBuffers, AreaBuffers.get] at hold
            · have h3f : (alistGet st.sessions (msid.getD "")).isNone = false := by
                cases hx : (alistGet st.sessions (msid.getD "")).isNone
                · rfl
                · exact absurd hx h3
              simp only [h3f, Bool.false_eq_true, if_false] at hold
              obtain ⟨b, hb⟩ := Option.isSome_iff_exists.mp
                (by rw [Option.isSome_iff_ne_none]
                    simpa [Option.isNone_iff_eq_none] using h3)
              rw [hb] at hold
              simp only [Option.getD_some] at hold
              exact h _ (alistGet_mem _ _ _ hb) area e hold
          · subst hnew
            exact jsTruthy_getD msid h2
        · rw [if_neg ha] at he
          by_cases h3 : (alistGet st.sessions (msid.getD "")).isNone
          · simp only [h3, if_true, alistGet_alistSet_self, Option.getD_some] at he
            cases area <;> simp [emptyAreaBuffers, AreaBuffers.get] at he
          · have h3f : (alistGet st.sessions (msid.getD "")).isNone = false := by
              cases hx : (alistGet st.sessions (msid.getD "")).isNone
              · rfl
              · exact absurd hx h3
            simp only [h3f, Bool.false_eq_true, if_false] at he
            obtain ⟨b, hb⟩ := Option.isSome_iff_exists.mp
              (by rw [Option.isSome_iff_ne_none]
                  simpa [Option.isNone_iff_eq_none] using h3)
            rw [hb] at he
            simp only [Option.getD_some] at he
            exact h _ (alistGet_mem _ _ _ hb) area e he
      · -- a pair untouched by this call
        by_cases h3 : (alistGet st.sessions (msid.getD "")).isNone
        · simp only [h3, if_true] at hp'
          rcases mem_alistSet _ _ _ p hp' with hp2 | hp2
          · subst hp2
            simp only at he
            cases area <;> simp [emptyAreaBuffers, AreaBuffers.get] at he
          · have : p ∈ st.sessions := by
              by_cases hc : st.sessions.length ≥ maxSessions
              · simp only [if_pos hc] at hp2
                exact List.mem_of_mem_drop hp2
              · simpa only [if_neg hc] using hp2
            exact h p this area e he
        · have h3f : (alistGet st.sessions (msid.getD "")).isNone = false := by
            cases hx : (alistGet st.sessions (msid.getD "")).isNone
            · rfl
            · exact absurd hx h3
          simp only [h3f, Bool.false_eq_true, if_false] at hp'
          exact h p hp' area e he
    · have h2f : jsTruthy msid = false := by simpa using h2
      simp only [addLogToStorage, h1f, Bool.false_eq_true, if_false, h2f]
      exact h

theorem sessionTagged_applyLogOps (ops : List LogOp) (st : LogStorage)
    (h : SessionTagged st) : SessionTagged (applyLogOps ops st) := by
  induction ops generalizing st with
  | nil => exact h
  | cons op rest ih =>
    simp only [applyLogOps, List.foldl_cons]
    exact ih _ (sessionTagged_addLog _ _ _ _ _ _ h)

theorem mem_jsSliceLast {n : Nat} {l : List LogEntry} {e : LogEntry}
    (h : e ∈ jsSliceLast n l) : e ∈ l := by
  unfold jsSliceLast at h
  by_cases h0 : n = 0
  · rwa [if_pos h0] at h
  · rw [if_neg h0] at h
    exact List.mem_of_mem_drop h

/-- Every entry returned by `getLogsForSession` comes from the system
buffer of the queried area or from the querying session's own buffer. -/
theorem mem_getLogsForSession (sessionId : String) (type : LogArea)
    (opts : QueryOptions) (st : LogStorage) (e : LogEntry)
    (h : e ∈ getLogsForSession sessionId type opts st) :
    e ∈ st.system.get type ∨
      ∃ buf, alistGet st.sessions sessionId = some buf ∧ e ∈ buf.get type := by
  unfold getLogsForSession at h
  have h2 := mem_jsSliceLast h
  have h3 : e ∈ List.insertionSort tsLe
      (st.system.get type ++ ((alistGet st.sessions sessionId).map (·.get type)).getD []) := by
    rcases hs : opts.since with _ | d
    · rw [hs] at h2
      by_cases hl : jsTruthy opts.level
      · rw [if_pos hl] at h2
        exact (List.mem_filter.mp h2).1
      · rwa [if_neg hl] at h2
    · rw [hs] at h2
      have h2' := (List.mem_filter.mp h2).1
      by_cases hl : jsTruthy opts.level
      · rw [if_pos hl] at h2'
        exact (List.mem_filter.mp h2').1
      · rwa [if_neg hl] at h2'
  have h4 := ((List.perm_insertionSort tsLe _).mem_iff).mp h3
  rcases List.mem_append.mp h4 with h5 | h5
  · exact Or.inl h5
  · right
    cases hbuf : alistGet st.sessions sessionId with
    | none =>
      rw [hbuf] at h5
      simp at h5
    | some buf =>
      rw [hbuf] at h5
      simp only [Option.map_some', Option.getD_some] at h5
      exact ⟨buf, rfl, h5⟩

/-- **C2** (counterexample).  The claim says a query with session A's
identifier never returns an entry whose classification is `session` and
whose session identifier is B.  But when session B logs a message that
matches a system keyword (`"server started"`), `addLogToStorage` files
it in the *shared system store* while tagging it
`logType: 'session'` with B's id — and session A's query then returns
exactly that entry. -/
theorem getLogsForSession_cross_session_leak :
    ("A" : String) ≠ "B" ∧
    getLogsForSession "A" LogArea.backend ⟨none, none, none⟩
        (addLogToStorage LogArea.backend "info" "server started" (some "B") 0
          emptyLogStorage) =
      [{ timestamp := 0, level := "info", message := "server started"
         metaSessionId := some "B", logType := "session" }] := by
  constructor
  · decide
  · decide

/-- **C2** (amended).  For any history of recorded emissions and any
sessions A ≠ B, querying A's logs never returns an entry held in B's
(or any other session's) per-session store: every returned entry lies
in the shared system store or carries A's own session identifier.  The
system store, however, is *not* free of other users' content: an
emission of B whose message matches a system keyword is stored there
with `logType 'session'` and B's identifier, and is visible to A. -/
theorem getLogsForSession_isolated :
    ∀ (ops : List LogOp) (A : String) (area : LogArea) (opts : QueryOptions) (e : LogEntry),
      e ∈ getLogsForSession A area opts (applyLogOps ops emptyLogStorage) →
      e ∈ (applyLogOps ops emptyLogStorage).system.get area ∨ e.metaSessionId = some A := by
  intro ops A area opts e h
  rcases mem_getLogsForSession A area opts _ e h with h1 | ⟨buf, hbuf, hmem⟩
  · exact Or.inl h1
  · right
    have htag := sessionTagged_applyLogOps ops emptyLogStorage sessionTagged_empty
    exact htag (A, buf) (alistGet_mem _ _ _ hbuf) area e hmem

/-- Witness for the amended C2 theorem: a one-emission history by
session A; the query returns the entry and the theorem places it. -/
theorem getLogsForSession_isolated_witness :
    (⟨7, "info", "hello", some "A", "session"⟩ : LogEntry) ∈
        getLogsForSession "A" LogArea.backend ⟨none, none, none⟩
          (applyLogOps [⟨LogArea.backend, "info", "hello", some "A", 7⟩] emptyLogStorage) ∧
    ((⟨7, "info", "hello", some "A", "session"⟩ : LogEntry) ∈
        (applyLogOps [⟨LogArea.backend, "info", "hello", some "A", 7⟩]
          emptyLogStorage).system.get LogArea.backend ∨
      (⟨7, "info", "hello", some "A", "session"⟩ : LogEntry).metaSessionId = some "A") :=
  ⟨by decide,
   getLogsForSession_isolated [⟨LogArea.backend, "info", "hello", some "A", 7⟩] "A"
     LogArea.backend ⟨none, none, none⟩ ⟨7, "info", "hello", some "A", "session"⟩ (by decide)⟩

/-! ## JSON-RPC call correlator (`callMcpMethod` / `initializeMcpServer`,
src/services/mcpManager.js 140-239 and 242-301)

The stdout byte stream is modelled as `List Char` chunks (Node delivers
`data` events whose `toString()` the handlers concatenate).
`JSON.parse` is an external JS builtin, modelled as an arbitrary
partial parse function `List Char → Option RpcMsg`; theorems quantify
over it, and concrete instances are used for witnesses.  The event loop
delivers a sequence of `data` events and at most one `timeout` firing;
the handlers' bodies are translated into lists of primitive actions
applied in source order, so that "the listener is detached before the
promise is settled" is derived from the order, not assumed. -/

/-- The fields of a parsed JSON-RPC response that the handlers consult:
`response.id`, `response.error` (its `.message`, `none` when there is
no `error` field) and `response.result` (opaque payload). -/
structure RpcMsg where
  id : Option String
  error : Option String
  result : String
deriving DecidableEq, Repr

/-- How `callMcpMethod` settles on an id-matched response
(mcpManager.js 179-195): reject with
`response.error.message || 'MCP method error'`, or resolve with the
result. -/
inductive Outcome where
  | resolved (result : String)
  | rejectedError (msg : String)
  | rejectedTimeout
  | rejectedWrite
deriving DecidableEq, Repr

def settleOf (msg : RpcMsg) : Outcome :=
  match msg.error with
  | some m => .rejectedError (if m.isEmpty then "MCP method error" else m)
  | none => .resolved msg.result

/-- `initializeMcpServer` settles with `response.error.message`
directly (mcpManager.js 275-279). -/
def initSettleOf (msg : RpcMsg) : Outcome :=
  match msg.error with
  | some m => .rejectedError m
  | none => .resolved msg.result

/-- JS `string.split('\n')` on a character list: always returns at
least one (possibly empty) segment; segments contain no newline. -/
def splitOnNl : List Char → List (List Char)
  | [] => [[]]
  | c :: cs =>
    if c = '\n' then [] :: splitOnNl cs
    else
      match splitOnNl cs with
      | [] => [[]]
      | l :: ls => (c :: l) :: ls

/-- Whitespace recognised by JS `trim` (the cases that occur on this
wire: space, newline, carriage return, tab). -/
def isWsChar (c : Char) : Bool := c = ' ' || c = '\n' || c = '\t' || c = '\r'

def jsTrim (s : List Char) : List Char :=
  ((s.dropWhile isWsChar).reverse.dropWhile isWsChar).reverse

/-- One iteration of the `for` loop over a complete line
(mcpManager.js 169-201): trim, skip when empty, try to parse, and
report the message only when its id equals the request id; parse
failures and foreign ids are skipped (`continue`). -/
def lineMatch (parse : List Char → Option RpcMsg) (reqId : String)
    (line : List Char) : Option RpcMsg :=
  let t := jsTrim line
  if t.isEmpty then none
  else
    match parse t with
    | some msg => if msg.id = some reqId then some msg else none
    | none => none

/-- The `for` loop over the complete lines: the first line on which
`lineMatch` fires wins (the handler returns there). -/
def findMatch (parse : List Char → Option RpcMsg) (reqId : String) :
    List (List Char) → Option RpcMsg
  | [] => none
  | line :: rest =>
    match lineMatch parse reqId line with
    | some m => some m
    | none => findMatch parse reqId rest

/-- State of one pending call: accumulated `responseData`, whether the
`data` listener is attached, whether the timeout is still armed, and
the settle calls performed so far (each recorded with the listener
state at the moment the settle call ran). -/
structure CallState where
  responseData : List Char
  listenerOn : Bool
  timeoutActive : Bool
  attempts : List (Outcome × Bool)
deriving DecidableEq, Repr

/-- The primitive effects the handlers perform, in source order:
`clearTimeout`, `stdout.off('data', handler)`, and settling the
promise. -/
inductive PrimAction where
  | clearTimeout
  | off
  | settle (o : Outcome)
deriving DecidableEq, Repr

def applyAction (s : CallState) : PrimAction → CallState
  | .clearTimeout => { s with timeoutActive := false }
  | .off => { s with listenerOn := false }
  | .settle o => { s with attempts := s.attempts ++ [(o, s.listenerOn)] }

def runActions (s : CallState) (as : List PrimAction) : CallState :=
  as.foldl applyAction s

/-- `responseHandler` of `callMcpMethod` (mcpManager.js 165-206) on one
`data` event: append the chunk, split on newlines, scan the complete
lines for an id match; on match run `clearTimeout; off; settle`
(lines 176-195) and return, otherwise keep only the final incomplete
line (line 205).  A detached listener is never invoked. -/
def callOnData (parse : List Char → Option RpcMsg) (reqId : String)
    (s : CallState) (chunk : List Char) : CallState :=
  if !s.listenerOn then s
  else
    let data := s.responseData ++ chunk
    let lines := splitOnNl data
    match findMatch parse reqId lines.dropLast with
    | some msg =>
      runActions { s with responseData := data }
        [.clearTimeout, .off, .settle (settleOf msg)]
    | none => { s with responseData := lines.getLastD [] }

/-- The timeout callback of `callMcpMethod` (mcpManager.js 209-218):
if the timer is still armed, it fires (disarming itself — a one-shot
timer), detaches the listener first, then rejects.  A cleared timer
never fires. -/
def callOnTimeout (s : CallState) : CallState :=
  if s.timeoutActive then
    runActions { s with timeoutActive := false } [.off, .settle .rejectedTimeout]
  else s

inductive McpEvent where
  | data (chunk : List Char)
  | timeout
deriving DecidableEq, Repr

def callStep (parse : List Char → Option RpcMsg) (reqId : String)
    (s : CallState) : McpEvent → CallState
  | .data c => callOnData parse reqId s c
  | .timeout => callOnTimeout s

/-- State after `callMcpMethod` registers the handler and timeout and
writes the request (mcpManager.js 209-237): on a write failure the
`catch` runs `clearTimeout; off; reject(error)` immediately. -/
def callInit (writeOk : Bool) : CallState :=
  if writeOk then ⟨[], true, true, []⟩
  else runActions ⟨[], true, true, []⟩ [.clearTimeout, .off, .settle .rejectedWrite]

def callRun (parse : List Char → Option RpcMsg) (reqId : String)
    (writeOk : Bool) (events : List McpEvent) : CallState :=
  events.foldl (callStep parse reqId) (callInit writeOk)

/-- Promise semantics: the settle call that takes effect is the first
one; later resolve/reject calls on an already-settled promise are
no-ops. -/
def promiseOutcome (s : CallState) : Option Outcome := s.attempts.head?.map (·.1)

/-- `initializeMcpServer`'s response handler (mcpManager.js 267-285) on
one `data` event: append the chunk and `JSON.parse` the *entire*
accumulated buffer; on parse success with id `'init'` run
`off; settle` (no `clearTimeout` — the 5s timer is never cleared);
any parse failure just waits for more data. -/
def initOnData (parse : List Char → Option RpcMsg) (s : CallState)
    (chunk : List Char) : CallState :=
  if !s.listenerOn then s
  else
    let data := s.responseData ++ chunk
    match parse data with
    | some msg =>
      if msg.id = some "init" then
        runActions { s with responseData := data } [.off, .settle (initSettleOf msg)]
      else { s with responseData := data }
    | none => { s with responseData := data }

/-- The init timeout (mcpManager.js 289-292): when the (one-shot,
never-cleared) timer is still armed it fires, detaches, then rejects.
Since `initializeMcpServer` contains no `clearTimeout`, this timer is
always still armed when its 5 seconds elapse — even after a successful
handshake. -/
def initOnTimeout (s : CallState) : CallState :=
  if s.timeoutActive then
    runActions { s with timeoutActive := false } [.off, .settle .rejectedTimeout]
  else s

def initStep (parse : List Char → Option RpcMsg) (s : CallState) :
    McpEvent → CallState
  | .data c => initOnData parse s c
  | .timeout => initOnTimeout s

def initRun (parse : List Char → Option RpcMsg) (events : List McpEvent) : CallState :=
  events.foldl (initStep parse) ⟨[], true, true, []⟩

/-- A concrete parse function for witnesses: an exact-string lookup
table, consistent with `JSON.parse` on the strings involved. -/
def tableParse (tbl : List (List Char × RpcMsg)) : List Char → Option RpcMsg :=
  fun s => (tbl.find? (fun kv => kv.1 == s)).map (·.2)

/-! ## Codec lemmas: newline splitting -/

theorem splitOnNl_ne_nil (s : List Char) : splitOnNl s ≠ [] := by
  cases s with
  | nil => simp [splitOnNl]
  | cons c cs =>
    simp only [splitOnNl]
    by_cases hc : c = '\n'
    · simp [hc]
    · rw [if_neg hc]
      cases h : splitOnNl cs <;> simp

theorem mem_splitOnNl_no_nl (s : List Char) :
    ∀ seg ∈ splitOnNl s, '\n' ∉ seg := by
  induction s with
  | nil =>
    intro seg hseg
    simp [splitOnNl] at hseg
    simp [hseg]
  | cons c cs ih =>
    intro seg hseg
    simp only [splitOnNl] at hseg
    by_cases hc : c = '\n'
    · rw [if_pos hc] at hseg
      rcases List.mem_cons.mp hseg with h | h
      · simp [h]
      · exact ih seg h
    · rw [if_neg hc] at hseg
      cases h : splitOnNl cs with
      | nil => exact absurd h (splitOnNl_ne_nil cs)
      | cons l ls =>
        rw [h] at hseg
        rcases List.mem_cons.mp hseg with h' | h'
        · subst h'
          intro hmem
          rcases List.mem_cons.mp hmem with h'' | h''
          · exact hc h''.symm
          · exact ih l (h ▸ List.mem_cons_self l ls) h''
        · exact ih seg (h ▸ List.mem_cons_of_mem l h')

theorem splitOnNl_of_no_nl (r : List Char) (h : '\n' ∉ r) : splitOnNl r = [r] := by
  induction r with
  | nil => rfl
  | cons c cs ih =>
    have hc : ¬(c = '\n') := fun hh => h (hh ▸ List.mem_cons_self c cs)
    have hcs : '\n' ∉ cs := fun hh => h (List.mem_cons_of_mem c hh)
    simp only [splitOnNl, if_neg hc, ih hcs]

theorem modifyHead_nil_app (l : List (List Char)) :
    l.modifyHead (fun h => ([] : List Char) ++ h) = l := by
  cases l <;> simp

theorem splitOnNl_append (a b : List Char) :
    splitOnNl (a ++ b) =
      (splitOnNl a).dropLast ++
        (splitOnNl b).modifyHead (fun h => (splitOnNl a).getLastD [] ++ h) := by
  induction a with
  | nil =>
    cases hb : splitOnNl b <;> simp [splitOnNl, hb]
  | cons c cs ih =>
    by_cases hc : c = '\n'
    · subst hc
      show splitOnNl ('\n' :: (cs ++ b)) = _
      simp only [splitOnNl, if_pos rfl, ih]
      cases h : splitOnNl cs with
      | nil => exact absurd h (splitOnNl_ne_nil cs)
      | cons l ls =>
        simp [List.dropLast, List.getLastD_cons]
    · show splitOnNl (c :: (cs ++ b)) = _
      simp only [splitOnNl, if_neg hc, ih]
      cases h : splitOnNl cs with
      | nil => exact absurd h (splitOnNl_ne_nil cs)
      | cons l ls =>
        cases ls with
        | nil =>
          cases hb : splitOnNl b with
          | nil => exact absurd hb (splitOnNl_ne_nil b)
          | cons h' t' => simp [List.dropLast, List.getLastD_cons]
        | cons l2 ls2 =>
          simp [List.dropLast, List.getLastD_cons]

theorem findMatch_append_some (parse : List Char → Option RpcMsg) (reqId : String)
    (u v : List (List Char)) (m : RpcMsg) (h : findMatch parse reqId u = some m) :
    findMatch parse reqId (u ++ v) = some m := by
  induction u with
  | nil => simp [findMatch] at h
  | cons line rest ih =>
    rw [List.cons_append]
    simp only [findMatch] at h ⊢
    cases hl : lineMatch parse reqId line with
    | some m' =>
      simp only [hl] at h ⊢
      exact h
    | none =>
      simp only [hl] at h ⊢
      exact ih h

theorem findMatch_append_none (parse : List Char → Option RpcMsg) (reqId : String)
    (u v : List (List Char)) (h : findMatch parse reqId u = none) :
    findMatch parse reqId (u ++ v) = findMatch parse reqId v := by
  induction u with
  | nil => rfl
  | cons line rest ih =>
    rw [List.cons_append]
    simp only [findMatch] at h ⊢
    cases hl : lineMatch parse reqId line with
    | some m' =>
      simp only [hl] at h
      exact absurd h (by simp)
    | none =>
      simp only [hl] at h ⊢
      exact ih h

theorem getLastD_eq_of_ne_nil {α : Type} (l : List α) (d d' : α) (h : l ≠ []) :
    l.getLastD d = l.getLastD d' := by
  cases l with
  | nil => exact absurd rfl h
  | cons y t => rw [List.getLastD_cons, List.getLastD_cons]

theorem getLastD_append {α : Type} (u v : List α) (d : α) (h : v ≠ []) :
    (u ++ v).getLastD d = v.getLastD d := by
  induction u generalizing d with
  | nil => rfl
  | cons x u' ih =>
    rw [List.cons_append, List.getLastD_cons, ih x]
    exact getLastD_eq_of_ne_nil v x d h

theorem getLastD_mem {α : Type} (l : List α) (d : α) (h : l ≠ []) : l.getLastD d ∈ l := by
  induction l generalizing d with
  | nil => exact absurd rfl h
  | cons y t ih =>
    rw [List.getLastD_cons]
    cases t with
    | nil => simp [List.getLastD]
    | cons z t' => exact List.mem_cons_of_mem _ (ih y (by simp))

theorem modifyHead_ne_nil {α : Type} (l : List α) (f : α → α) (h : l ≠ []) :
    l.modifyHead f ≠ [] := by
  cases l with
  | nil => exact absurd rfl h
  | cons y t => simp

theorem splitOnNl_no_nl_append (r b : List Char) (h : '\n' ∉ r) :
    splitOnNl (r ++ b) = (splitOnNl b).modifyHead (fun x => r ++ x) := by
  rw [splitOnNl_append, splitOnNl_of_no_nl r h]
  simp [List.getLastD]

theorem runActions_matchPath (s : CallState) (o : Outcome) :
    runActions s [.clearTimeout, .off, .settle o] =
      { s with timeoutActive := false, listenerOn := false,
               attempts := s.attempts ++ [(o, false)] } := rfl

theorem runActions_timeoutPath (s : CallState) :
    runActions s [.off, .settle .rejectedTimeout] =
      { s with listenerOn := false,
               attempts := s.attempts ++ [(.rejectedTimeout, false)] } := rfl

/-- Observable part of a call state: the settle calls performed, and
the listener/timer status (the buffer is internal). -/
def callObs (s : CallState) : List (Outcome × Bool) × Bool × Bool :=
  (s.attempts, s.listenerOn, s.timeoutActive)

/-- Equation: `responseHandler` on a detached listener does nothing. -/
theorem callOnData_off (parse : List Char → Option RpcMsg) (reqId : String)
    (s : CallState) (chunk : List Char) (h : s.listenerOn = false) :
    callOnData parse reqId s chunk = s := by
  unfold callOnData
  rw [h]
  rfl

/-- Equation: `responseHandler` when a complete line matches. -/
theorem callOnData_eq_match (parse : List Char → Option RpcMsg) (reqId : String)
    (s : CallState) (chunk : List Char) (hon : s.listenerOn = true) (msg : RpcMsg)
    (hm : findMatch parse reqId (splitOnNl (s.responseData ++ chunk)).dropLast = some msg) :
    callOnData parse reqId s chunk =
      { s with responseData := s.responseData ++ chunk, timeoutActive := false,
               listenerOn := false, attempts := s.attempts ++ [(settleOf msg, false)] } := by
  unfold callOnData
  rw [hon]
  dsimp only
  rw [hm]
  rfl

/-- Equation: `responseHandler` when no complete line matches: keep the
final (possibly incomplete) line. -/
theorem callOnData_eq_nomatch (parse : List Char → Option RpcMsg) (reqId : String)
    (s : CallState) (chunk : List Char) (hon : s.listenerOn = true)
    (hm : findMatch parse reqId (splitOnNl (s.responseData ++ chunk)).dropLast = none) :
    callOnData parse reqId s chunk =
      { s with responseData := (splitOnNl (s.responseData ++ chunk)).getLastD [] } := by
  unfold callOnData
  rw [hon]
  dsimp only
  rw [hm]
  rfl

/-- Feeding one chunk `a` and then a chunk `b` to `responseHandler` is
observationally the same as feeding `a ++ b` at once, and while the
call is still pending the two runs hold the same buffer. -/
theorem callOnData_append (parse : List Char → Option RpcMsg) (reqId : String)
    (s : CallState) (a b : List Char) :
    callObs (callOnData parse reqId (callOnData parse reqId s a) b) =
      callObs (callOnData parse reqId s (a ++ b)) ∧
    ((callOnData parse reqId s (a ++ b)).listenerOn = true →
      (callOnData parse reqId (callOnData parse reqId s a) b).responseData =
        (callOnData parse reqId s (a ++ b)).responseData) := by
  by_cases hon : s.listenerOn = true
  case neg =>
    have hf : s.listenerOn = false := by
      cases hx : s.listenerOn
      · rfl
      · exact absurd hx hon
    rw [callOnData_off parse reqId s a hf, callOnData_off parse reqId s b hf,
      callOnData_off parse reqId s (a ++ b) hf]
    exact ⟨rfl, fun _ => rfl⟩
  case pos =>
    cases hma : findMatch parse reqId (splitOnNl (s.responseData ++ a)).dropLast with
    | some msg =>
      have h1 := callOnData_eq_match parse reqId s a hon msg hma
      have h2 : callOnData parse reqId (callOnData parse reqId s a) b =
          callOnData parse reqId s a := by
        rw [h1]
        exact callOnData_off parse reqId _ b rfl
      have hcomb : findMatch parse reqId
          (splitOnNl (s.responseData ++ (a ++ b))).dropLast = some msg := by
        rw [← List.append_assoc, splitOnNl_append,
          List.dropLast_append_of_ne_nil _
            (modifyHead_ne_nil _ _ (splitOnNl_ne_nil b))]
        exact findMatch_append_some parse reqId _ _ msg hma
      have h3 := callOnData_eq_match parse reqId s (a ++ b) hon msg hcomb
      rw [h2, h1, h3]
      exact ⟨rfl, fun hh => absurd hh (by simp)⟩
    | none =>
      have h1 := callOnData_eq_nomatch parse reqId s a hon hma
      have hrnl : '\n' ∉ (splitOnNl (s.responseData ++ a)).getLastD [] :=
        mem_splitOnNl_no_nl _ _ (getLastD_mem _ _ (splitOnNl_ne_nil _))
      have hsplitAll : splitOnNl (s.responseData ++ (a ++ b)) =
          (splitOnNl (s.responseData ++ a)).dropLast ++
            splitOnNl ((splitOnNl (s.responseData ++ a)).getLastD [] ++ b) := by
        rw [← List.append_assoc, splitOnNl_append, splitOnNl_no_nl_append _ b hrnl]
      have hdropAll : (splitOnNl (s.responseData ++ (a ++ b))).dropLast =
          (splitOnNl (s.responseData ++ a)).dropLast ++
            (splitOnNl ((splitOnNl (s.responseData ++ a)).getLastD [] ++ b)).dropLast := by
        rw [hsplitAll, List.dropLast_append_of_ne_nil _ (splitOnNl_ne_nil _)]
      cases hmb : findMatch parse reqId
          (splitOnNl ((splitOnNl (s.responseData ++ a)).getLastD [] ++ b)).dropLast with
      | some msg =>
        have h2 : callOnData parse reqId (callOnData parse reqId s a) b =
            { s with
                responseData := (splitOnNl (s.responseData ++ a)).getLastD [] ++ b,
                timeoutActive := false, listenerOn := false,
                attempts := s.attempts ++ [(settleOf msg, false)] } := by
          rw [h1]
          exact callOnData_eq_match parse reqId
            { s with responseData := (splitOnNl (s.responseData ++ a)).getLastD [] }
            b hon msg hmb
        have hcombm : findMatch parse reqId
            (splitOnNl (s.responseData ++ (a ++ b))).dropLast = some msg := by
          rw [hdropAll, findMatch_append_none parse reqId _ _ hma]
          exact hmb
        have h3 := callOnData_eq_match parse reqId s (a ++ b) hon msg hcombm
        rw [h2, h3]
        exact ⟨rfl, fun hh => absurd hh (by simp)⟩
      | none =>
        have h2 : callOnData parse reqId (callOnData parse reqId s a) b =
            { s with responseData :=
                (splitOnNl ((splitOnNl (s.responseData ++ a)).getLastD [] ++ b)).getLastD [] } := by
          rw [h1]
          exact callOnData_eq_nomatch parse reqId
            { s with responseData := (splitOnNl (s.responseData ++ a)).getLastD [] }
            b hon hmb
        have hcombn : findMatch parse reqId
            (splitOnNl (s.responseData ++ (a ++ b))).dropLast = none := by
          rw [hdropAll, findMatch_append_none parse reqId _ _ hma]
          exact hmb
        have h3 := callOnData_eq_nomatch parse reqId s (a ++ b) hon hcombn
        have hbuf : (splitOnNl (s.responseData ++ (a ++ b))).getLastD [] =
            (splitOnNl ((splitOnNl (s.responseData ++ a)).getLastD [] ++ b)).getLastD [] := by
          rw [hsplitAll]
          exact getLastD_append _ _ _ (splitOnNl_ne_nil _)
        rw [h2, h3, hbuf]
        exact ⟨rfl, fun _ => rfl⟩

theorem callOnData_listener_false (s : CallState) (h : s.listenerOn = false)
    (parse : List Char → Option RpcMsg) (reqId : String) (c : List Char) :
    callOnData parse reqId s c = s := callOnData_off parse reqId s c h

theorem callOnData_inv (parse : List Char → Option RpcMsg) (reqId : String)
    (s : CallState) (c : List Char)
    (hinv : s.listenerOn = true → '\n' ∉ s.responseData) :
    (callOnData parse reqId s c).listenerOn = true →
      '\n' ∉ (callOnData parse reqId s c).responseData := by
  by_cases hon : s.listenerOn = true
  · cases hma : findMatch parse reqId (splitOnNl (s.responseData ++ c)).dropLast with
    | some msg =>
      rw [callOnData_eq_match parse reqId s c hon msg hma]
      intro hh
      exact absurd hh (by simp)
    | none =>
      rw [callOnData_eq_nomatch parse reqId s c hon hma]
      intro _
      exact mem_splitOnNl_no_nl _ _ (getLastD_mem _ _ (splitOnNl_ne_nil _))
  · have hf : s.listenerOn = false := by
      cases hx : s.listenerOn
      · rfl
      · exact absurd hx hon
    rw [callOnData_off parse reqId s c hf]
    exact hinv

theorem callOnData_nil (parse : List Char → Option RpcMsg) (reqId : String)
    (s : CallState) (hinv : s.listenerOn = true → '\n' ∉ s.responseData) :
    callOnData parse reqId s [] = s := by
  by_cases hon : s.listenerOn = true
  · have hnone : findMatch parse reqId (splitOnNl (s.responseData ++ [])).dropLast = none := by
      rw [List.append_nil, splitOnNl_of_no_nl _ (hinv hon)]
      rfl
    rw [callOnData_eq_nomatch parse reqId s [] hon hnone]
    have hb : (splitOnNl (s.responseData ++ [])).getLastD [] = s.responseData := by
      rw [List.append_nil, splitOnNl_of_no_nl _ (hinv hon)]
      rfl
    rw [hb]
  · have hf : s.listenerOn = false := by
      cases hx : s.listenerOn
      · rfl
      · exact absurd hx hon
    exact callOnData_off parse reqId s [] hf

theorem callOnData_flatten (parse : List Char → Option RpcMsg) (reqId : String)
    (chunks : List (List Char)) (s : CallState)
    (hinv : s.listenerOn = true → '\n' ∉ s.responseData) :
    callObs (chunks.foldl (callOnData parse reqId) s) =
      callObs (callOnData parse reqId s chunks.flatten) ∧
    ((callOnData parse reqId s chunks.flatten).listenerOn = true →
      (chunks.foldl (callOnData parse reqId) s).responseData =
        (callOnData parse reqId s chunks.flatten).responseData) := by
  induction chunks generalizing s with
  | nil =>
    rw [List.foldl_nil, List.flatten_nil, callOnData_nil parse reqId s hinv]
    exact ⟨rfl, fun _ => rfl⟩
  | cons c rest ih =>
    rw [List.foldl_cons, List.flatten_cons]
    have hstep := callOnData_append parse reqId s c rest.flatten
    have hih := ih (callOnData parse reqId s c) (callOnData_inv parse reqId s c hinv)
    constructor
    · exact hih.1.trans hstep.1
    · intro hh
      have hl : (callOnData parse reqId (callOnData parse reqId s c) rest.flatten).listenerOn
          = true := by
        have h' := congrArg (fun t => t.2.1) hstep.1
        simp only [callObs] at h'
        rw [h']
        exact hh
      exact (hih.2 hl).trans (hstep.2 hh)

theorem callRun_data (parse : List Char → Option RpcMsg) (reqId : String)
    (w : Bool) (chunks : List (List Char)) :
    callRun parse reqId w (chunks.map McpEvent.data) =
      chunks.foldl (callOnData parse reqId) (callInit w) := by
  unfold callRun
  rw [List.foldl_map]
  rfl

/-- **C9** (confirmed).  Chunk-boundary independence of
`responseHandler`'s stdout decoding: delivering a byte stream in
arbitrarily small `data` chunks produces exactly the same observable
behaviour (settle calls, listener and timer state) as delivering the
same bytes in a single chunk; and as long as the call is still
pending, the buffer holds exactly the final (possibly incomplete) line
of everything delivered so far — the partial line is retained for the
next chunk, never parsed. -/
theorem responseHandler_chunk_independent :
    (∀ (parse : List Char → Option RpcMsg) (reqId : String) (chunks : List (List Char)),
        callObs (callRun parse reqId true (chunks.map McpEvent.data)) =
          callObs (callRun parse reqId true [McpEvent.data chunks.flatten])) ∧
    (∀ (parse : List Char → Option RpcMsg) (reqId : String) (chunks : List (List Char)),
        (callRun parse reqId true (chunks.map McpEvent.data)).listenerOn = true →
        (callRun parse reqId true (chunks.map McpEvent.data)).responseData =
          (splitOnNl chunks.flatten).getLastD []) := by
  have hinv0 : (callInit true).listenerOn = true → '\n' ∉ (callInit true).responseData := by
    intro _
    simp [callInit]
  constructor
  · intro parse reqId chunks
    rw [callRun_data]
    have h1 := callOnData_flatten parse reqId chunks (callInit true) hinv0
    exact h1.1
  · intro parse reqId chunks hl
    rw [callRun_data] at hl ⊢
    have h1 := callOnData_flatten parse reqId chunks (callInit true) hinv0
    have hcl : (callOnData parse reqId (callInit true) chunks.flatten).listenerOn = true := by
      have h' := congrArg (fun t => t.2.1) h1.1
      simp only [callObs] at h'
      rw [← h']
      exact hl
    cases hma : findMatch parse reqId
        (splitOnNl ((callInit true).responseData ++ chunks.flatten)).dropLast with
    | some msg =>
      rw [callOnData_eq_match parse reqId (callInit true) chunks.flatten rfl msg hma] at hcl
      exact absurd hcl (by simp)
    | none =>
      have heq := callOnData_eq_nomatch parse reqId (callInit true) chunks.flatten rfl hma
      rw [h1.2 hcl, heq]
      rfl

/-- Witness for C9: two chunks with no matching line; the pending
buffer equals the final line of the concatenated stream. -/
theorem responseHandler_chunk_independent_witness :
    ((callRun (tableParse []) "req-1" true
        ([['h'], ['i', '\n', 'x']].map McpEvent.data)).listenerOn = true) ∧
    (callRun (tableParse []) "req-1" true
        ([['h'], ['i', '\n', 'x']].map McpEvent.data)).responseData =
      (splitOnNl ([['h'], ['i', '\n', 'x']].flatten)).getLastD [] :=
  ⟨by decide,
   responseHandler_chunk_independent.2 (tableParse []) "req-1" [['h'], ['i', '\n', 'x']]
     (by decide)⟩

theorem callInit_inv :
    (callInit true).listenerOn = true → '\n' ∉ (callInit true).responseData := by
  intro _
  simp [callInit]

theorem callRun_attempts_of_match (parse : List Char → Option RpcMsg) (reqId : String)
    (chunks : List (List Char)) (msg : RpcMsg)
    (hm : findMatch parse reqId (splitOnNl chunks.flatten).dropLast = some msg) :
    (callRun parse reqId true (chunks.map McpEvent.data)).attempts =
      [(settleOf msg, false)] := by
  rw [callRun_data]
  have hobs := (callOnData_flatten parse reqId chunks (callInit true) callInit_inv).1
  have hatt := congrArg (fun t => t.1) hobs
  simp only [callObs] at hatt
  rw [hatt, callOnData_eq_match parse reqId (callInit true) chunks.flatten rfl msg hm]
  rfl

/-- The JSON line and the parse table used in the initialization
witnesses, consistent with `JSON.parse`: exactly the full response
line parses; any string with stray output prepended does not. -/
def initLineEx : String := "\x7b\"jsonrpc\":\"2.0\",\"id\":\"init\",\"result\":\x7b\x7d\x7d"

def initParseEx : List Char → Option RpcMsg :=
  tableParse [(initLineEx.data, ⟨some "init", none, "{}"⟩)]

/-- **C6** (counterexample).  The claim says every pending call —
including the initialize handshake — resolves with the id-matched
response under interleaved unrelated stdout.  `initializeMcpServer`
JSON-parses the *entire* accumulated buffer, so after a stray
`"noise\n"` line the buffer never parses again even though the
id-`'init'` response line arrives intact: initialization rejects by
the 5-second timeout.  Delivered without the stray prefix, the very
same response resolves the handshake. -/
theorem initialize_stray_output_timeout :
    promiseOutcome (initRun initParseEx
        [McpEvent.data ("noise\n".data), McpEvent.data initLineEx.data,
         McpEvent.timeout]) = some Outcome.rejectedTimeout ∧
    promiseOutcome (initRun initParseEx
        [McpEvent.data initLineEx.data, McpEvent.timeout]) =
      some (Outcome.resolved "{}") := by
  constructor
  · decide
  · decide

theorem initRun_data_none_aux (parse : List Char → Option RpcMsg)
    (chunks : List (List Char)) (acc : List Char)
    (h : ∀ n, parse (acc ++ (chunks.take n).flatten) = none) :
    (chunks.map McpEvent.data).foldl (initStep parse) ⟨acc, true, true, []⟩ =
      ⟨acc ++ chunks.flatten, true, true, []⟩ := by
  induction chunks generalizing acc with
  | nil =>
    simp
  | cons c rest ih =>
    simp only [List.map_cons, List.foldl_cons]
    have hstep : initStep parse ⟨acc, true, true, []⟩ (McpEvent.data c) =
        ⟨acc ++ c, true, true, []⟩ := by
      show initOnData parse ⟨acc, true, true, []⟩ c = _
      unfold initOnData
      dsimp only
      have h1 : parse (acc ++ c) = none := by
        have := h 1
        simpa using this
      rw [h1]
      rfl
    rw [hstep]
    have h' : ∀ n, parse ((acc ++ c) ++ (rest.take n).flatten) = none := by
      intro n
      have := h (n + 1)
      simpa [List.append_assoc] using this
    rw [ih (acc ++ c) h']
    simp [List.append_assoc]

/-- If no accumulated prefix of the delivered stdout ever parses as a
whole, the initialize handshake is still pending when the timer fires
and rejects by timeout. -/
theorem initRun_timeout_of_never_parses (parse : List Char → Option RpcMsg)
    (chunks : List (List Char))
    (h : ∀ n, parse ((chunks.take n).flatten) = none) :
    promiseOutcome (initRun parse (chunks.map McpEvent.data ++ [McpEvent.timeout])) =
      some Outcome.rejectedTimeout := by
  unfold initRun
  rw [List.foldl_append]
  have h0 : ∀ n, parse (([] : List Char) ++ (chunks.take n).flatten) = none := by
    intro n
    simpa using h n
  rw [initRun_data_none_aux parse chunks [] h0]
  rfl

/-- **C6** (amended).  For `callMcpMethod` pending calls, correlation
is strictly by id and immune to interleaving and chunking: whatever
unrelated complete lines (unparsable noise or foreign ids) surround
it, and however the stream is cut into chunks, the call settles with
exactly the first response line whose id equals its own; two calls
with distinct ids against the same stream each settle with their own
match.  The `initializeMcpServer` handshake resolves with the
id-matched response when the accumulated stdout parses as a whole (in
particular when the response arrives unprefixed), but it parses the
*entire* buffer, so if no accumulated prefix ever parses (e.g. stray
output precedes the response) it rejects by timeout instead. -/
theorem correlation_strictly_by_id :
    (∀ (parse : List Char → Option RpcMsg) (reqId : String)
        (chunks : List (List Char)) (msg : RpcMsg),
        findMatch parse reqId (splitOnNl chunks.flatten).dropLast = some msg →
        promiseOutcome (callRun parse reqId true (chunks.map McpEvent.data)) =
          some (settleOf msg)) ∧
    (∀ (parse : List Char → Option RpcMsg) (idA idB : String)
        (chunks : List (List Char)) (msgA msgB : RpcMsg), idA ≠ idB →
        findMatch parse idA (splitOnNl chunks.flatten).dropLast = some msgA →
        findMatch parse idB (splitOnNl chunks.flatten).dropLast = some msgB →
        promiseOutcome (callRun parse idA true (chunks.map McpEvent.data)) =
            some (settleOf msgA) ∧
          promiseOutcome (callRun parse idB true (chunks.map McpEvent.data)) =
            some (settleOf msgB)) ∧
    (∀ (parse : List Char → Option RpcMsg) (chunk : List Char) (msg : RpcMsg),
        parse chunk = some msg → msg.id = some "init" →
        promiseOutcome (initRun parse [McpEvent.data chunk]) =
          some (initSettleOf msg)) ∧
    (∀ (parse : List Char → Option RpcMsg) (chunks : List (List Char)),
        (∀ n, parse ((chunks.take n).flatten) = none) →
        promiseOutcome (initRun parse (chunks.map McpEvent.data ++ [McpEvent.timeout])) =
          some Outcome.rejectedTimeout) := by
  refine ⟨?_, ?_, ?_, initRun_timeout_of_never_parses⟩
  · intro parse reqId chunks msg hm
    unfold promiseOutcome
    rw [callRun_attempts_of_match parse reqId chunks msg hm]
    rfl
  · intro parse idA idB chunks msgA msgB _ hA hB
    constructor
    · unfold promiseOutcome
      rw [callRun_attempts_of_match parse idA chunks msgA hA]
      rfl
    · unfold promiseOutcome
      rw [callRun_attempts_of_match parse idB chunks msgB hB]
      rfl
  · intro parse chunk msg hp hid
    show promiseOutcome (initOnData parse ⟨[], true, true, []⟩ chunk) = _
    unfold initOnData
    dsimp only
    rw [List.nil_append, hp]
    simp [hid, promiseOutcome, runActions, applyAction]

def lineA : String := "\x7b\"id\":\"req_A\",\"result\":\"okA\"\x7d"
def lineB : String := "\x7b\"id\":\"req_B\",\"result\":\"okB\"\x7d"
def msgA : RpcMsg := ⟨some "req_A", none, "okA"⟩
def msgB : RpcMsg := ⟨some "req_B", none, "okB"⟩
def parseAB : List Char → Option RpcMsg :=
  tableParse [(lineA.data, msgA), (lineB.data, msgB)]
def chunksAB : List (List Char) := [(lineA ++ "\n" ++ lineB ++ "\n").data]

/-- Witness for the amended C6 theorem: a stream carrying two distinct
responses, each call resolving with its own; the init handshake
resolving on a cleanly delivered response; the init timeout when
nothing ever parses. -/
theorem correlation_strictly_by_id_witness :
    (findMatch parseAB "req_A" (splitOnNl chunksAB.flatten).dropLast = some msgA ∧
      promiseOutcome (callRun parseAB "req_A" true (chunksAB.map McpEvent.data)) =
        some (settleOf msgA)) ∧
    ("req_A" ≠ "req_B" ∧
      promiseOutcome (callRun parseAB "req_B" true (chunksAB.map McpEvent.data)) =
        some (settleOf msgB)) ∧
    (initParseEx initLineEx.data = some ⟨some "init", none, "{}"⟩ ∧
      promiseOutcome (initRun initParseEx [McpEvent.data initLineEx.data]) =
        some (initSettleOf ⟨some "init", none, "{}"⟩)) ∧
    promiseOutcome (initRun (tableParse [])
        ([['a']].map McpEvent.data ++ [McpEvent.timeout])) =
      some Outcome.rejectedTimeout :=
  ⟨⟨by decide, correlation_strictly_by_id.1 parseAB "req_A" chunksAB msgA (by decide)⟩,
   ⟨by decide, (correlation_strictly_by_id.2.1 parseAB "req_A" "req_B" chunksAB msgA msgB
      (by decide) (by decide) (by decide)).2⟩,
   ⟨by decide, correlation_strictly_by_id.2.2.1 initParseEx initLineEx.data
      ⟨some "init", none, "{}"⟩ (by decide) (by decide)⟩,
   correlation_strictly_by_id.2.2.2 (tableParse []) [['a']] (fun _ => rfl)⟩

/-! ## C4: settlement uniqueness and listener detachment -/

theorem settleOf_ne_write (msg : RpcMsg) : settleOf msg ≠ Outcome.rejectedWrite := by
  unfold settleOf
  cases msg.error with
  | none => simp
  | some m => split <;> simp

/-- Equation: the call timeout fires when still armed: disarm, detach,
then reject (the settle runs with the listener already off). -/
theorem callOnTimeout_fire (s : CallState) (h : s.timeoutActive = true) :
    callOnTimeout s =
      { s with timeoutActive := false, listenerOn := false,
               attempts := s.attempts ++ [(Outcome.rejectedTimeout, false)] } := by
  unfold callOnTimeout
  rw [h]
  rfl

/-- Equation: a cleared (or already fired) timer does nothing. -/
theorem callOnTimeout_noop (s : CallState) (h : s.timeoutActive = false) :
    callOnTimeout s = s := by
  unfold callOnTimeout
  rw [h]
  rfl

/-- Invariant of a pending `callMcpMethod` call after a successful
write: at most one settle call has run; once settled, both the
listener and the timer are off; while the timer is armed no settle has
happened, and once it is disarmed one has; every settle ran with the
listener already detached and none was the write-failure rejection. -/
def CallInv (s : CallState) : Prop :=
  s.attempts.length ≤ 1 ∧
  (s.attempts ≠ [] → s.listenerOn = false ∧ s.timeoutActive = false) ∧
  (s.timeoutActive = false → s.attempts ≠ []) ∧
  (∀ a ∈ s.attempts, a.2 = false ∧ a.1 ≠ Outcome.rejectedWrite)

theorem callInit_true_inv : CallInv (callInit true) := by
  refine ⟨by decide, ?_, ?_, ?_⟩
  · intro h
    exact absurd rfl h
  · intro h
    exact absurd h (by decide)
  · intro a ha
    exact absurd ha (List.not_mem_nil a)

/-- Every event preserves the pending-call invariant. -/
theorem callStep_inv (parse : List Char → Option RpcMsg) (reqId : String)
    (s : CallState) (e : McpEvent) (hinv : CallInv s) :
    CallInv (callStep parse reqId s e) := by
  obtain ⟨h1, h2, h4, h5⟩ := hinv
  cases e with
  | data c =>
    show CallInv (callOnData parse reqId s c)
    cases hon : s.listenerOn with
    | false =>
      rw [callOnData_off parse reqId s c hon]
      exact ⟨h1, h2, h4, h5⟩
    | true =>
      have hemp : s.attempts = [] := by
        by_contra hne
        have := (h2 hne).1
        rw [hon] at this
        exact absurd this (by simp)
      cases hma : findMatch parse reqId (splitOnNl (s.responseData ++ c)).dropLast with
      | some msg =>
        rw [callOnData_eq_match parse reqId s c hon msg hma, hemp]
        refine ⟨by simp, fun _ => ⟨rfl, rfl⟩, fun _ => by simp, ?_⟩
        intro a ha
        simp only [List.nil_append, List.mem_singleton] at ha
        subst ha
        exact ⟨rfl, settleOf_ne_write msg⟩
      | none =>
        rw [callOnData_eq_nomatch parse reqId s c hon hma]
        exact ⟨h1, h2, h4, h5⟩
  | timeout =>
    show CallInv (callOnTimeout s)
    cases hta : s.timeoutActive with
    | false =>
      rw [callOnTimeout_noop s hta]
      exact ⟨h1, h2, h4, h5⟩
    | true =>
      have hemp : s.attempts = [] := by
        by_contra hne
        have := (h2 hne).2
        rw [hta] at this
        exact absurd this (by simp)
      rw [callOnTimeout_fire s hta, hemp]
      refine ⟨by simp, fun _ => ⟨rfl, rfl⟩, fun _ => by simp, ?_⟩
      intro a ha
      simp only [List.nil_append, List.mem_singleton] at ha
      subst ha
      exact ⟨rfl, by decide⟩

theorem foldl_callStep_inv (parse : List Char → Option RpcMsg) (reqId : String)
    (evs : List McpEvent) (s : CallState) (hs : CallInv s) :
    CallInv (evs.foldl (callStep parse reqId) s) := by
  induction evs generalizing s with
  | nil => exact hs
  | cons e rest ih => exact ih _ (callStep_inv parse reqId s e hs)

/-- Once a settle call has run it cannot be undone by later events. -/
theorem callStep_attempts_mono (parse : List Char → Option RpcMsg) (reqId : String)
    (s : CallState) (e : McpEvent) (h : s.attempts ≠ []) :
    (callStep parse reqId s e).attempts ≠ [] := by
  cases e with
  | data c =>
    show (callOnData parse reqId s c).attempts ≠ []
    cases hon : s.listenerOn with
    | false =>
      rw [callOnData_off parse reqId s c hon]
      exact h
    | true =>
      cases hma : findMatch parse reqId (splitOnNl (s.responseData ++ c)).dropLast with
      | some msg =>
        rw [callOnData_eq_match parse reqId s c hon msg hma]
        simp
      | none =>
        rw [callOnData_eq_nomatch parse reqId s c hon hma]
        exact h
  | timeout =>
    show (callOnTimeout s).attempts ≠ []
    cases hta : s.timeoutActive with
    | false =>
      rw [callOnTimeout_noop s hta]
      exact h
    | true =>
      rw [callOnTimeout_fire s hta]
      simp

theorem foldl_attempts_mono (parse : List Char → Option RpcMsg) (reqId : String)
    (evs : List McpEvent) (s : CallState) (h : s.attempts ≠ []) :
    (evs.foldl (callStep parse reqId) s).attempts ≠ [] := by
  induction evs generalizing s with
  | nil => exact h
  | cons e rest ih => exact ih _ (callStep_attempts_mono parse reqId s e h)

/-- Completeness: once the timeout event has occurred, the call is
settled (either it was already settled — in which case the timer was
cleared — or the timer fires and rejects). -/
theorem callRun_settles_of_timeout (parse : List Char → Option RpcMsg)
    (reqId : String) (evs : List McpEvent) (hmem : McpEvent.timeout ∈ evs) :
    (callRun parse reqId true evs).attempts ≠ [] := by
  obtain ⟨l1, l2, hsplit⟩ := List.append_of_mem hmem
  rw [hsplit]
  unfold callRun
  rw [List.foldl_append, List.foldl_cons]
  apply foldl_attempts_mono
  have hinv : CallInv (l1.foldl (callStep parse reqId) (callInit true)) :=
    foldl_callStep_inv parse reqId l1 (callInit true) callInit_true_inv
  show (callOnTimeout (l1.foldl (callStep parse reqId) (callInit true))).attempts ≠ []
  cases hta : (l1.foldl (callStep parse reqId) (callInit true)).timeoutActive with
  | false =>
    rw [callOnTimeout_noop _ hta]
    exact hinv.2.2.1 hta
  | true =>
    rw [callOnTimeout_fire _ hta]
    simp

/-- Settle budget: a handler that is still attached has not settled. -/
def settleBudget (b : Bool) : Nat := if b then 0 else 1

/-- Invariant of the `initializeMcpServer` handshake: the data handler
settles at most once (then detaches), the never-cleared timer settles
at most once (when it fires), so the attempt count is bounded by the
number of already-fired settle sources; once the timer has fired the
promise is settled and the listener is off; every settle ran with the
listener already detached. -/
def InitInv (s : CallState) : Prop :=
  s.attempts.length ≤ settleBudget s.listenerOn + settleBudget s.timeoutActive ∧
  (s.timeoutActive = false → s.attempts ≠ [] ∧ s.listenerOn = false) ∧
  (∀ a ∈ s.attempts, a.2 = false)

theorem initStart_inv : InitInv ⟨[], true, true, []⟩ := by
  refine ⟨by decide, ?_, ?_⟩
  · intro h
    exact absurd h (by decide)
  · intro a ha
    exact absurd ha (List.not_mem_nil a)

/-- Equation: the init handler on a detached listener does nothing. -/
theorem initOnData_off (parse : List Char → Option RpcMsg) (s : CallState)
    (c : List Char) (h : s.listenerOn = false) :
    initOnData parse s c = s := by
  unfold initOnData
  rw [h]
  rfl

/-- Equation: the whole accumulated buffer parses with id `'init'`:
detach, then settle (the 5s timer stays armed). -/
theorem initOnData_eq_settle (parse : List Char → Option RpcMsg) (s : CallState)
    (c : List Char) (hon : s.listenerOn = true) (msg : RpcMsg)
    (hp : parse (s.responseData ++ c) = some msg) (hid : msg.id = some "init") :
    initOnData parse s c =
      { s with responseData := s.responseData ++ c, listenerOn := false,
               attempts := s.attempts ++ [(initSettleOf msg, false)] } := by
  unfold initOnData
  rw [hon]
  dsimp only
  rw [hp]
  dsimp only
  rw [if_pos hid]
  rfl

/-- Equation: the buffer parses but carries a foreign id: keep waiting. -/
theorem initOnData_eq_wrongid (parse : List Char → Option RpcMsg) (s : CallState)
    (c : List Char) (hon : s.listenerOn = true) (msg : RpcMsg)
    (hp : parse (s.responseData ++ c) = some msg) (hid : ¬msg.id = some "init") :
    initOnData parse s c = { s with responseData := s.responseData ++ c } := by
  unfold initOnData
  rw [hon]
  dsimp only
  rw [hp]
  dsimp only
  rw [if_neg hid]
  rfl

/-- Equation: the buffer does not parse yet: keep waiting. -/
theorem initOnData_eq_none (parse : List Char → Option RpcMsg) (s : CallState)
    (c : List Char) (hon : s.listenerOn = true)
    (hp : parse (s.responseData ++ c) = none) :
    initOnData parse s c = { s with responseData := s.responseData ++ c } := by
  unfold initOnData
  rw [hon]
  dsimp only
  rw [hp]
  rfl

/-- Equation: the init timer fires when still armed: disarm, detach,
then reject. -/
theorem initOnTimeout_fire (s : CallState) (h : s.timeoutActive = true) :
    initOnTimeout s =
      { s with timeoutActive := false, listenerOn := false,
               attempts := s.attempts ++ [(Outcome.rejectedTimeout, false)] } := by
  unfold initOnTimeout
  rw [h]
  rfl

theorem initOnTimeout_noop (s : CallState) (h : s.timeoutActive = false) :
    initOnTimeout s = s := by
  unfold initOnTimeout
  rw [h]
  rfl

/-- Every event preserves the handshake invariant. -/
theorem initStep_inv (parse : List Char → Option RpcMsg) (s : CallState)
    (e : McpEvent) (hinv : InitInv s) : InitInv (initStep parse s e) := by
  obtain ⟨h1, h2, h3⟩ := hinv
  cases e with
  | data c =>
    show InitInv (initOnData parse s c)
    cases hon : s.listenerOn with
    | false =>
      rw [initOnData_off parse s c hon]
      exact ⟨h1, h2, h3⟩
    | true =>
      cases hp : parse (s.responseData ++ c) with
      | none =>
        rw [initOnData_eq_none parse s c hon hp]
        exact ⟨h1, h2, h3⟩
      | some msg =>
        by_cases hid : msg.id = some "init"
        case neg =>
          rw [initOnData_eq_wrongid parse s c hon msg hp hid]
          exact ⟨h1, h2, h3⟩
        case pos =>
          rw [initOnData_eq_settle parse s c hon msg hp hid]
          refine ⟨?_, ?_, ?_⟩
          · show (s.attempts ++ [(initSettleOf msg, false)]).length ≤
              settleBudget false + settleBudget s.timeoutActive
            have hb := h1
            rw [hon] at hb
            have e1 : settleBudget true = 0 := rfl
            have e2 : settleBudget false = 1 := rfl
            simp only [List.length_append, List.length_singleton]
            omega
          · intro hta
            have hlf := (h2 hta).2
            rw [hon] at hlf
            exact absurd hlf (by simp)
          · intro a ha
            rcases List.mem_append.1 ha with hm | hm
            · exact h3 a hm
            · have ha2 := List.mem_singleton.1 hm
              subst ha2
              rfl
  | timeout =>
    show InitInv (initOnTimeout s)
    cases hta : s.timeoutActive with
    | false =>
      rw [initOnTimeout_noop s hta]
      exact ⟨h1, h2, h3⟩
    | true =>
      rw [initOnTimeout_fire s hta]
      refine ⟨?_, fun _ => ⟨by simp, rfl⟩, ?_⟩
      · show (s.attempts ++ [(Outcome.rejectedTimeout, false)]).length ≤
          settleBudget false + settleBudget false
        have hb := h1
        rw [hta] at hb
        have e1 : settleBudget true = 0 := rfl
        have e2 : settleBudget false = 1 := rfl
        have hl : settleBudget s.listenerOn ≤ 1 := by
          cases s.listenerOn <;> decide
        simp only [List.length_append, List.length_singleton]
        omega
      · intro a ha
        rcases List.mem_append.1 ha with hm | hm
        · exact h3 a hm
        · have ha2 := List.mem_singleton.1 hm
          subst ha2
          rfl

theorem foldl_initStep_inv (parse : List Char → Option RpcMsg)
    (evs : List McpEvent) (s : CallState) (hs : InitInv s) :
    InitInv (evs.foldl (initStep parse) s) := by
  induction evs generalizing s with
  | nil => exact hs
  | cons e rest ih => exact ih _ (initStep_inv parse s e hs)

/-- A fired timer stays fired: no event re-arms it. -/
theorem initStep_timeout_off (parse : List Char → Option RpcMsg) (s : CallState)
    (e : McpEvent) (h : s.timeoutActive = false) :
    (initStep parse s e).timeoutActive = false := by
  cases e with
  | data c =>
    show (initOnData parse s c).timeoutActive = false
    cases hon : s.listenerOn with
    | false =>
      rw [initOnData_off parse s c hon]
      exact h
    | true =>
      cases hp : parse (s.responseData ++ c) with
      | none =>
        rw [initOnData_eq_none parse s c hon hp]
        exact h
      | some msg =>
        by_cases hid : msg.id = some "init"
        · rw [initOnData_eq_settle parse s c hon msg hp hid]
          exact h
        · rw [initOnData_eq_wrongid parse s c hon msg hp hid]
          exact h
  | timeout =>
    show (initOnTimeout s).timeoutActive = false
    rw [initOnTimeout_noop s h]
    exact h

theorem foldl_initStep_timeout_off (parse : List Char → Option RpcMsg)
    (evs : List McpEvent) (s : CallState) (h : s.timeoutActive = false) :
    (evs.foldl (initStep parse) s).timeoutActive = false := by
  induction evs generalizing s with
  | nil => exact h
  | cons e rest ih => exact ih _ (initStep_timeout_off parse s e h)

/-- After the 5-second timeout event (which `initializeMcpServer`
never cancels) the init timer has certainly fired. -/
theorem initRun_timeout_off_of_mem (parse : List Char → Option RpcMsg)
    (evs : List McpEvent) (hmem : McpEvent.timeout ∈ evs) :
    (initRun parse evs).timeoutActive = false := by
  obtain ⟨l1, l2, hsplit⟩ := List.append_of_mem hmem
  rw [hsplit]
  unfold initRun
  rw [List.foldl_append, List.foldl_cons]
  apply foldl_initStep_timeout_off
  show (initOnTimeout (l1.foldl (initStep parse) ⟨[], true, true, []⟩)).timeoutActive = false
  cases hta : (l1.foldl (initStep parse) ⟨[], true, true, []⟩).timeoutActive with
  | false =>
    rw [initOnTimeout_noop _ hta]
    exact hta
  | true =>
    rw [initOnTimeout_fire _ hta]

/-- **C4** (confirmed).  Settlement of a pending call is exactly-once
and every settling path detaches the stdout listener first.  For a
`callMcpMethod` call whose request write succeeded, once its 30-second
window has closed (the timeout event occurred, or the timer was
already cleared by a match), exactly one settle call has run — never
zero, never two — so exactly one of resolve-with-result,
reject-with-protocol-error, reject-by-timeout takes effect, it is not
the write-failure rejection, the data listener is detached, and every
settle ran with the listener already off (in particular the timeout
path detaches before rejecting, so no stale handler can fire).  For
the `initializeMcpServer` handshake, whose 5-second timer is never
cleared, once the timeout event has occurred the promise is settled
(never zero attempts; at most two settle calls ever run — a resolve
and the inevitable late timeout rejection — of which promise
first-settle-wins semantics lets exactly the first take effect), the
listener is detached, and every settle ran with the listener off. -/
theorem pendingCall_settles_exactly_once :
    (∀ (parse : List Char → Option RpcMsg) (reqId : String) (evs : List McpEvent),
        McpEvent.timeout ∈ evs ∨ (callRun parse reqId true evs).timeoutActive = false →
        (callRun parse reqId true evs).attempts.length = 1 ∧
        (promiseOutcome (callRun parse reqId true evs)).isSome = true ∧
        (callRun parse reqId true evs).listenerOn = false ∧
        ∀ a ∈ (callRun parse reqId true evs).attempts,
          a.2 = false ∧ a.1 ≠ Outcome.rejectedWrite) ∧
    (∀ (parse : List Char → Option RpcMsg) (evs : List McpEvent),
        McpEvent.timeout ∈ evs →
        (initRun parse evs).attempts ≠ [] ∧
        (initRun parse evs).attempts.length ≤ 2 ∧
        (promiseOutcome (initRun parse evs)).isSome = true ∧
        (initRun parse evs).listenerOn = false ∧
        ∀ a ∈ (initRun parse evs).attempts, a.2 = false) := by
  constructor
  · intro parse reqId evs h
    have hinv : CallInv (callRun parse reqId true evs) :=
      foldl_callStep_inv parse reqId evs (callInit true) callInit_true_inv
    obtain ⟨hlen, h2, h4, h5⟩ := hinv
    have hne : (callRun parse reqId true evs).attempts ≠ [] := by
      rcases h with hmem | hta
      · exact callRun_settles_of_timeout parse reqId evs hmem
      · exact h4 hta
    refine ⟨?_, ?_, (h2 hne).1, h5⟩
    · have hpos : 0 < (callRun parse reqId true evs).attempts.length :=
        List.length_pos.2 hne
      omega
    · unfold promiseOutcome
      cases hat : (callRun parse reqId true evs).attempts with
      | nil => exact absurd hat hne
      | cons a t => simp
  · intro parse evs hmem
    have hinv : InitInv (initRun parse evs) :=
      foldl_initStep_inv parse evs ⟨[], true, true, []⟩ initStart_inv
    have hta : (initRun parse evs).timeoutActive = false :=
      initRun_timeout_off_of_mem parse evs hmem
    obtain ⟨hne, hloff⟩ := hinv.2.1 hta
    refine ⟨hne, ?_, ?_, hloff, hinv.2.2⟩
    · have hb := hinv.1
      rw [hloff, hta] at hb
      have e2 : settleBudget false = 1 := rfl
      omega
    · unfold promiseOutcome
      cases hat : (initRun parse evs).attempts with
      | nil => exact absurd hat hne
      | cons a t => simp

/-- Witness for C4: a call and a handshake that receive no matching
data and whose timers fire — each settles exactly once, by timeout,
with the listener detached before the rejection. -/
theorem pendingCall_settles_exactly_once_witness :
    (McpEvent.timeout ∈ [McpEvent.timeout] ∨
        (callRun (tableParse []) "w4" true [McpEvent.timeout]).timeoutActive = false) ∧
    ((callRun (tableParse []) "w4" true [McpEvent.timeout]).attempts.length = 1 ∧
      (promiseOutcome (callRun (tableParse []) "w4" true [McpEvent.timeout])).isSome = true ∧
      (callRun (tableParse []) "w4" true [McpEvent.timeout]).listenerOn = false ∧
      ∀ a ∈ (callRun (tableParse []) "w4" true [McpEvent.timeout]).attempts,
        a.2 = false ∧ a.1 ≠ Outcome.rejectedWrite) ∧
    ((initRun (tableParse []) [McpEvent.timeout]).attempts ≠ [] ∧
      (initRun (tableParse []) [McpEvent.timeout]).attempts.length ≤ 2 ∧
      (promiseOutcome (initRun (tableParse []) [McpEvent.timeout])).isSome = true ∧
      (initRun (tableParse []) [McpEvent.timeout]).listenerOn = false ∧
      ∀ a ∈ (initRun (tableParse []) [McpEvent.timeout]).attempts, a.2 = false) :=
  ⟨Or.inl (by decide),
   pendingCall_settles_exactly_once.1 (tableParse []) "w4" [McpEvent.timeout]
     (Or.inl (by decide)),
   pendingCall_settles_exactly_once.2 (tableParse []) [McpEvent.timeout] (by decide)⟩
